import Mathlib

/-!
# A shallow embedding of the qsi-pulse-reader core

This file embeds the pulses.bin reader of `rust-core/src/pulse_reader.rs`
(struct `PulseReader` with `open`, `get_raw_records`, `get_all_records`,
`get_pulses` and `copy_apertures_to_new_file`) as executable Lean functions
over byte lists, and proves the specified properties of those operations.

Modelling conventions:

* Bytes are `Fin 256`; a file is a `List Byte`.  A successful
  `read_exact` of `len` bytes at absolute position `pos` is modelled by
  `readExact`, which fails (like the `IoError` of a short read) when the
  range is out of bounds.  Each `read_exact` of the Rust code is preceded by
  a seek or follows sequentially; positions are therefore made explicit.
* Rust integer arithmetic is modelled with release (non-panicking)
  semantics: casts truncate (`leEncode` keeps the low bytes) and the
  `u16` shift in the record-type parser masks its shift amount.
* Rust panics (the `unwrap()` calls of the source) are modelled as the
  distinguished outcome `PRError.panicked`, which is distinct from the
  returned error kinds `notFound`, `invalidInput` and `ioError`.  The
  source never constructs `notFound` or `invalidInput`; those
  constructors exist so that specification claims about them can be stated.
* `f32` engineering values are modelled exactly as integer pairs
  (`ExactVal`, a numerator and a positive denominator, not reduced); the
  properties proved below only ever compare them for equality.
* The submodules `headers.rs`, `records.rs`, `constants.rs` and
  `pulse_filter.rs` of the repository are not available; their
  definitions are modelled from the specification and are marked
  `Modelled from the spec:` in their doc comments.
* The destination file of `copy_apertures_to_new_file` is modelled as the
  byte list produced by the buffered writer after the final flush; the
  `file_name : PathBuf` field and OS path handling are not modelled.
-/

set_option maxRecDepth 100000
set_option maxHeartbeats 2000000

/-- A byte, the element type of a modelled file. -/
abbrev Byte := Fin 256

/-- Little-endian decoding of a byte list into a natural number, the
model of `uN::from_le_bytes`. -/
def leDecode : List Byte → Nat
  | [] => 0
  | b :: bs => b.val + 256 * leDecode bs

/-- Little-endian encoding of a natural number into `w` bytes, the model
of `uN::to_le_bytes` composed with Rust's truncating integer casts. -/
def leEncode : Nat → Nat → List Byte
  | 0, _ => []
  | w + 1, n => ⟨n % 256, Nat.mod_lt _ (by norm_num)⟩ :: leEncode w (n / 256)

theorem leEncode_length (w n : Nat) : (leEncode w n).length = w := by
  induction w generalizing n with
  | zero => rfl
  | succ k ih => simp [leEncode, ih]

theorem leDecode_leEncode (w n : Nat) : leDecode (leEncode w n) = n % 256 ^ w := by
  induction w generalizing n with
  | zero => simp [leEncode, leDecode, Nat.mod_one]
  | succ k ih =>
    simp only [leEncode, leDecode, ih]
    rw [pow_succ, mul_comm (256 ^ k) 256, Nat.mod_mul]

theorem leDecode_lt (bs : List Byte) : leDecode bs < 256 ^ bs.length := by
  induction bs with
  | nil => simp [leDecode]
  | cons b bs ih =>
    simp only [leDecode, List.length_cons, pow_succ]
    have hb := b.isLt
    have h256 : 256 * leDecode bs + 256 ≤ 256 * 256 ^ bs.length := by
      have : leDecode bs + 1 ≤ 256 ^ bs.length := ih
      calc 256 * leDecode bs + 256 = 256 * (leDecode bs + 1) := by ring
      _ ≤ 256 * 256 ^ bs.length := Nat.mul_le_mul_left _ this
    calc b.val + 256 * leDecode bs < 256 + 256 * leDecode bs := by omega
    _ ≤ 256 * 256 ^ bs.length := by omega
    _ = 256 ^ bs.length * 256 := by ring

theorem leDecode_leEncode_of_lt {w n : Nat} (h : n < 256 ^ w) :
    leDecode (leEncode w n) = n := by
  rw [leDecode_leEncode, Nat.mod_eq_of_lt h]

/-- Model of a successful `read_exact` of `len` bytes at absolute
position `pos` of `file`; a short read (out-of-bounds range) fails. -/
def readExact (file : List Byte) (pos len : Nat) : Option (List Byte) :=
  if pos + len ≤ file.length then some ((file.drop pos).take len) else none

theorem readExact_eq_some {file s : List Byte} {pos len : Nat}
    (h : readExact file pos len = some s) :
    pos + len ≤ file.length ∧ s = (file.drop pos).take len ∧ s.length = len := by
  unfold readExact at h
  split at h
  · rename_i hle
    refine ⟨hle, (Option.some.injEq _ _).mp h.symm, ?_⟩
    cases (Option.some.injEq _ _).mp h.symm
    simp [List.length_take, List.length_drop]
    omega
  · exact absurd h (by simp)

theorem readExact_of_le {file : List Byte} {pos len : Nat}
    (h : pos + len ≤ file.length) :
    readExact file pos len = some ((file.drop pos).take len) := by
  unfold readExact
  simp [h]

/-- A sub-range of a successful read is itself a successful read. -/
theorem readExact_sub {file s : List Byte} {pos len : Nat}
    (h : readExact file pos len = some s) (q l : Nat) (hql : q + l ≤ len) :
    readExact file (pos + q) l = some ((s.drop q).take l) := by
  obtain ⟨hle, hs, _⟩ := readExact_eq_some h
  subst hs
  rw [readExact_of_le (by omega)]
  congr 1
  rw [List.drop_take, List.take_take, ← List.drop_drop]
  congr 1
  omega

/-- Reading entirely inside the right part of an appended file. -/
theorem readExact_append_right (a b : List Byte) (q l : Nat)
    (h : q + l ≤ b.length) :
    readExact (a ++ b) (a.length + q) l = some ((b.drop q).take l) := by
  rw [readExact_of_le (by simp; omega)]
  congr 1
  rw [List.drop_append]

/-- Two files that agree on the byte segment `[s, t)` give equal reads
inside that segment. -/
theorem readExact_congr_segment {f g : List Byte} {s t : Nat}
    (hseg : (f.drop s).take (t - s) = (g.drop s).take (t - s))
    (hf : t ≤ f.length) (hg : t ≤ g.length)
    {p l : Nat} (hp : s ≤ p) (hl : p + l ≤ t) :
    readExact f p l = readExact g p l := by
  rw [readExact_of_le (by omega), readExact_of_le (by omega)]
  have key : ∀ u : List Byte, t ≤ u.length →
      (u.drop p).take l = (((u.drop s).take (t - s)).drop (p - s)).take l := by
    intro u hu
    rw [List.drop_take, List.take_take, List.drop_drop]
    have h1 : s + (p - s) = p := by omega
    have h2 : l ⊓ (t - s - (p - s)) = l := by
      have : l ≤ t - s - (p - s) := by omega
      exact Nat.min_eq_left this
    rw [h1, h2]
  rw [key f hf, key g hg, hseg]

example : leDecode (leEncode 8 300) = 300 := by decide
example : readExact [⟨1, by norm_num⟩, ⟨2, by norm_num⟩] 1 1 = some [⟨2, by norm_num⟩] := by decide

/-- Size in bytes of the full pulse file header (`FILE_HEADER_SIZE_FULL`).
Modelled from the spec: `constants.rs` is not in the sources; the header
holds six little-endian integer fields, modelled as 8 bytes each. -/
def FILE_HEADER_SIZE_FULL : Nat := 48

/-- Size in bytes of a per-aperture header (`READ_HEADER_SIZE`).
Modelled from the spec: identifier (8 bytes), x and y coordinates
(4 bytes each) and the record count (8 bytes). -/
def READ_HEADER_SIZE : Nat := 24

/-- Size in bytes of one raw record slot (`PULSE_SIZE`).  Modelled from
the spec: a RawRecord is an opaque fixed-size byte block. -/
def PULSE_SIZE : Nat := 16

/-- Size in bytes of one index record: a 4-byte aperture identifier and
an 8-byte offset (`INDEX_RECORD_SIZE`). -/
def INDEX_RECORD_SIZE : Nat := 12

/-- The format-identifying magic value of the file header.  Modelled
from the spec: the concrete constant of `constants.rs` is unknown; only
equality with it is ever tested. -/
def PULSE_FILE_MAGIC : Nat := 0x50314C53

/-- The magic value opening the index section (`INDEX_SECTION_MAGIC`).
Modelled from the spec: the concrete constant is unknown. -/
def INDEX_SECTION_MAGIC : Nat := 0x5831444E49

/-- The parsed fixed-size file header.  Modelled from the spec:
`headers.rs` is not in the sources; the fields are the ones the core
reads (magic value, record-type count, metadata length, index offset,
data offset, read count), all little-endian. -/
structure PulseFileHeader where
  magic : Nat
  num_encoding_records : Nat
  metadata_length : Nat
  index_offset : Nat
  data_offset : Nat
  num_reads : Nat
deriving DecidableEq, Repr, Inhabited

/-- `PulseFileHeader::new`: parse the six fields from the header bytes.
Modelled from the spec (layout as in `PulseFileHeader`). -/
def PulseFileHeader.new (bs : List Byte) : PulseFileHeader :=
  { magic := leDecode (bs.take 8)
  , num_encoding_records := leDecode ((bs.drop 8).take 8)
  , metadata_length := leDecode ((bs.drop 16).take 8)
  , index_offset := leDecode ((bs.drop 24).take 8)
  , data_offset := leDecode ((bs.drop 32).take 8)
  , num_reads := leDecode ((bs.drop 40).take 8) }

/-- `PulseFileHeader::validate`: the magic value must match the expected
constant.  Modelled from the spec (failure mode BadMagic). -/
def PulseFileHeader.validate (h : PulseFileHeader) : Bool :=
  h.magic == PULSE_FILE_MAGIC

/-- `PulseFileHeader::write_all`: serialize the six fields back to
bytes; Rust's u64 fields truncate modulo 2^64. -/
def PulseFileHeader.write_all (h : PulseFileHeader) : List Byte :=
  leEncode 8 h.magic ++ leEncode 8 h.num_encoding_records ++
    leEncode 8 h.metadata_length ++ leEncode 8 h.index_offset ++
    leEncode 8 h.data_offset ++ leEncode 8 h.num_reads

/-- One record-type table entry (`PulseRecordType`).  The `scale` field
is the `u16` value `1 << bits` (stored as an exact `f32` in the code;
`u16` values convert to `f32` exactly, so a natural number is a faithful
model). -/
structure PulseRecordType where
  record_type : Nat
  bits : Nat
  scale : Nat
  offset : Nat
deriving DecidableEq, Repr, Inhabited

/-- The byte at index `i`, as a natural number (`buffer[i]`). -/
def byteVal (bs : List Byte) (i : Nat) : Nat :=
  ((bs.drop i).headD ⟨0, by norm_num⟩).val

/-- The record-type table parsing loop of `PulseReader::open`: entry
`idx` has its type code at byte `4*idx`, its bit width at `4*idx + 1`
and its two-byte offset at `4*idx + 2`.  The scale is the Rust
expression `1u16 << rec_bits`, whose shift amount is masked to the
`u16` width under release semantics. -/
def parseRecordTypes : List Byte → Nat → List PulseRecordType
  | _, 0 => []
  | bs, k + 1 =>
    { record_type := byteVal bs 0
    , bits := byteVal bs 1
    , scale := 1 <<< (byteVal bs 1 % 16)
    , offset := leDecode ((bs.drop 2).take 2) } :: parseRecordTypes (bs.drop 4) k

/-- A per-aperture header (`ApertureHeader`): the aperture's own
identifier, coordinates, record count, and the absolute byte offset it
was read from.  Modelled from the spec: `headers.rs` is not in the
sources. -/
structure ApertureHeader where
  well_id : Nat
  x : Nat
  y : Nat
  num_pulses : Nat
  byte_loc : Nat
deriving DecidableEq, Repr, Inhabited

/-- `ApertureHeader::new`: parse the fixed-size per-aperture header and
record the byte offset it came from. -/
def ApertureHeader.new (bs : List Byte) (byte_loc : Nat) : ApertureHeader :=
  { well_id := leDecode (bs.take 8)
  , x := leDecode ((bs.drop 8).take 4)
  , y := leDecode ((bs.drop 12).take 4)
  , num_pulses := leDecode ((bs.drop 16).take 8)
  , byte_loc := byte_loc }

/-- The index entry parsing loop: `num_reads` records of a 4-byte
aperture identifier followed by an 8-byte offset. -/
def parseIndexEntries : List Byte → Nat → List (Nat × Nat)
  | _, 0 => []
  | bs, k + 1 =>
    (leDecode (bs.take 4), leDecode ((bs.drop 4).take 8)) ::
      parseIndexEntries (bs.drop 12) k

/-- The aperture index (`PulseFileIndex`).  Modelled from the spec:
`headers.rs` is not in the sources; the identifier-to-offset mapping is
modelled as the parsed entry list in file order (lookup is first match;
on files whose index has no duplicate identifiers — the only ones the
well-formedness predicate below admits — this coincides with any map). -/
structure PulseFileIndex where
  entries : List (Nat × Nat)
deriving DecidableEq, Repr, Inhabited

/-- `PulseFileIndex::new`: parse `n` entries from the index section. -/
def PulseFileIndex.new (bs : List Byte) (n : Nat) : PulseFileIndex :=
  ⟨parseIndexEntries bs n⟩

/-- `index.get(aperture)`: offset lookup by aperture identifier. -/
def PulseFileIndex.get (idx : PulseFileIndex) (ap : Nat) : Option Nat :=
  (idx.entries.find? (fun e => e.1 == ap)).map (fun e => e.2)

/-- `index.apertures`: the aperture identifiers, in index order. -/
def PulseFileIndex.apertures (idx : PulseFileIndex) : List Nat :=
  idx.entries.map (fun e => e.1)

/-- Modelled from the spec: the frame rate is a field of the JSON
metadata blob; the external JSON parser (serde_json) is not part of the
core, so the extraction is modelled as a deterministic function of the
metadata bytes.  No proved property depends on its value, only on its
determinism. -/
def metadataFps (bs : List Byte) : Nat :=
  leDecode (bs.take 4)

/-- Modelled from the spec: whether the pulse-caller options of the JSON
metadata contain the trim_boundary_frames flag, again modelled as a
deterministic function of the metadata bytes. -/
def metadataTrimmed (bs : List Byte) : Bool :=
  (bs.map Fin.val).contains 116

/-- The reader (`PulseReader`): the open file's bytes and cursor, the
parsed header, record-type table, metadata, and aperture index.  The
`file_name : PathBuf` field of the source is not modelled (no
filesystem); `metadata` is the parsed JSON document, modelled by its
bytes. -/
structure PulseReader where
  header : PulseFileHeader
  record_types : List PulseRecordType
  raw_metadata : List Byte
  metadata : List Byte
  fps : Nat
  trimmed : Bool
  index : PulseFileIndex
  file : List Byte
  pos : Nat
deriving DecidableEq, Repr, Inhabited

/-- `PulseReader::open` on the file's bytes: read and validate the
header, parse the record-type table and the metadata blob, seek to the
index section, check its magic value and parse the index.  Failures
(short reads, bad magic values, and the panics of the metadata
`unwrap`s) are collapsed to `none`; no claim below distinguishes open's
failure modes. -/
def PulseReader.openFile (file : List Byte) : Option PulseReader :=
  match readExact file 0 FILE_HEADER_SIZE_FULL with
  | none => none
  | some header_buffer =>
    let header := PulseFileHeader.new header_buffer
    if header.validate then
      match readExact file FILE_HEADER_SIZE_FULL (4 * header.num_encoding_records) with
      | none => none
      | some record_buffer =>
        match readExact file (FILE_HEADER_SIZE_FULL + 4 * header.num_encoding_records)
            header.metadata_length with
        | none => none
        | some metadata_buffer =>
          match readExact file header.index_offset 8 with
          | none => none
          | some index_magic_buffer =>
            if leDecode index_magic_buffer = INDEX_SECTION_MAGIC then
              match readExact file (header.index_offset + 8)
                  (INDEX_RECORD_SIZE * header.num_reads) with
              | none => none
              | some index_buffer =>
                some { header := header
                     , record_types := parseRecordTypes record_buffer header.num_encoding_records
                     , raw_metadata := metadata_buffer
                     , metadata := metadata_buffer
                     , fps := metadataFps metadata_buffer
                     , trimmed := metadataTrimmed metadata_buffer
                     , index := PulseFileIndex.new index_buffer header.num_reads
                     , file := file
                     , pos := header.index_offset + 8 + INDEX_RECORD_SIZE * header.num_reads }
            else none
    else none

/-- The error outcomes of the fallible reader operations.  `panicked`
models a Rust panic (a failed `unwrap`); the other constructors model
the error kinds named by the specification, of which the source code
only ever produces `ioError`. -/
inductive PRError where
  | panicked
  | notFound
  | invalidInput
  | ioError
deriving DecidableEq, Repr, Inhabited

/-- An exact rational value `num / den`, the model of an `f32`
engineering value (kept un-normalized; only compared for equality). -/
structure ExactVal where
  num : Int
  den : Nat
deriving DecidableEq, Repr, Inhabited

/-- Exact addition of two modelled values. -/
def ExactVal.add (a b : ExactVal) : ExactVal :=
  ⟨a.num * b.den + b.num * a.den, a.den * b.den⟩

/-- Exact division of two modelled values. -/
def ExactVal.div (a b : ExactVal) : ExactVal :=
  ⟨a.num * (b.den : Int), a.den * b.num.natAbs⟩

/-- Exact division of a modelled value by a constant. -/
def ExactVal.divNat (a : ExactVal) (k : Nat) : ExactVal :=
  ⟨a.num, a.den * k⟩

/-- A raw record: one opaque `PULSE_SIZE`-byte block.  Modelled from the
spec: `records.rs` is not in the sources; a RawRecord is an undecoded
fixed-size byte block, so `RawRecord::new` keeps the slice. -/
abbrev RawRecord := List Byte

/-- Modelled from the spec: record-type code classified as background. -/
def RECORD_TYPE_BACKGROUND : Nat := 0

/-- Modelled from the spec: record-type code classified as a pulse. -/
def RECORD_TYPE_PULSE : Nat := 1

/-- Modelled from the spec: record-type code classified as a long pulse. -/
def RECORD_TYPE_LONG_PULSE : Nat := 2

/-- Modelled from the spec: record-type code classified as a frame event. -/
def RECORD_TYPE_EVENT : Nat := 3

/-- A decoded record (`FormattedRecord`).  Modelled from the spec:
`records.rs` is not in the sources; the fields are the ones the host
adapters copy out (position index, type classification, inter-record
gap, duration, two intensity channels, two background channels with
standard deviations, and the two classification-dependent optional
fields). -/
structure FormattedRecord where
  index : Nat
  record_type : Nat
  frames_since_last : Nat
  duration : Nat
  intensity0 : ExactVal
  intensity1 : ExactVal
  bg0 : ExactVal
  bg1 : ExactVal
  sd0 : ExactVal
  sd1 : ExactVal
  long_pulse_num_frames : Option Nat
  event_frame : Option Nat
deriving DecidableEq, Repr, Inhabited

/-- Fixed-point dequantization by a record type's scale and offset.
Modelled from the spec: the exact calibration formula is pinned by
golden files, not by the available sources; what matters below is that
it is a pure function of the packed integer and the descriptor. -/
def dequant (rt : PulseRecordType) (packed : Nat) : ExactVal :=
  ⟨(packed : Int) + (rt.offset : Int) * (rt.scale : Int), rt.scale⟩

/-- `FormattedRecord::from_raw`: decode one raw record using the
record-type table.  Modelled from the spec: the bit layout within a raw
record is pinned externally; the layout chosen here reads the type code
from byte 0, the frame gap and duration as two-byte integers, the
packed channel values behind them, and the optional fields (present
exactly for the long-pulse and frame-event classifications) from bytes
5 to 8.  A pure function of the raw block, the table and the index. -/
def FormattedRecord.from_raw (raw : RawRecord) (record_types : List PulseRecordType)
    (idx : Nat) : FormattedRecord :=
  let ty := byteVal raw 0
  let rt := (record_types.find? (fun t => t.record_type == ty)).getD ⟨ty, 0, 1, 0⟩
  { index := idx
  , record_type := ty
  , frames_since_last := leDecode ((raw.drop 1).take 2)
  , duration := leDecode ((raw.drop 3).take 2)
  , intensity0 := dequant rt (leDecode ((raw.drop 5).take 2))
  , intensity1 := dequant rt (leDecode ((raw.drop 7).take 2))
  , bg0 := dequant rt (leDecode ((raw.drop 9).take 2))
  , bg1 := dequant rt (leDecode ((raw.drop 11).take 2))
  , sd0 := dequant rt (byteVal raw 13)
  , sd1 := dequant rt (byteVal raw 14)
  , long_pulse_num_frames :=
      if ty = RECORD_TYPE_LONG_PULSE then some (leDecode ((raw.drop 5).take 4)) else none
  , event_frame :=
      if ty = RECORD_TYPE_EVENT then some (leDecode ((raw.drop 5).take 4)) else none }

/-- A derived pulse event (`NormalizedPulse`).  Modelled from the spec:
`records.rs` is not in the sources; fields as exposed to the host
adapters. -/
structure NormalizedPulse where
  index : Nat
  start_f : Nat
  end_f : Nat
  dur_f : Nat
  dur_s : ExactVal
  ipd_f : Nat
  ipd_s : ExactVal
  snr : ExactVal
  intensity : ExactVal
  bin0_intensity : ExactVal
  intensity_display : ExactVal
  binratio : ExactVal
  bg_mean : ExactVal
  bg_std : ExactVal
  bin0_bg_mean : ExactVal
  bin0_bg_std : ExactVal
deriving DecidableEq, Repr, Inhabited

/-- Modelled from the spec: a record contributes a NormalizedPulse
exactly when its type classification is pulse-bearing. -/
def isPulseRecord (rec : FormattedRecord) : Bool :=
  rec.record_type == RECORD_TYPE_PULSE || rec.record_type == RECORD_TYPE_LONG_PULSE

/-- Modelled from the spec: the normalization loop.  It walks the
formatted records in on-disk order accumulating the current frame
position and the end frame of the last retained pulse; every
pulse-bearing record yields exactly one NormalizedPulse (with the
pinned calibration arithmetic modelled by the ExactVal operations) and
every other record yields none. -/
def normalizeRecords (fps : Nat) : List FormattedRecord → Nat → Nat → List NormalizedPulse
  | [], _, _ => []
  | rec :: rest, cur, last_end =>
    let start_f := cur + rec.frames_since_last
    let end_f := start_f + rec.duration
    if isPulseRecord rec then
      { index := rec.index
      , start_f := start_f
      , end_f := end_f
      , dur_f := rec.duration
      , dur_s := ⟨rec.duration, fps⟩
      , ipd_f := start_f - last_end
      , ipd_s := ⟨(start_f - last_end : Nat), fps⟩
      , snr := (rec.intensity0.add rec.intensity1).div (rec.sd0.add rec.sd1)
      , intensity := rec.intensity0.add rec.intensity1
      , bin0_intensity := rec.intensity0
      , intensity_display := rec.intensity0.add rec.intensity1
      , binratio := rec.intensity0.div (rec.intensity0.add rec.intensity1)
      , bg_mean := (rec.bg0.add rec.bg1).divNat 2
      , bg_std := (rec.sd0.add rec.sd1).divNat 2
      , bin0_bg_mean := rec.bg0
      , bin0_bg_std := rec.sd0 } :: normalizeRecords fps rest end_f end_f
    else normalizeRecords fps rest end_f last_end

/-- `NormalizedPulse::from_formatted_records`.  Modelled from the spec:
derive the ordered pulse sequence from an aperture's full formatted
record sequence and the frame rate. -/
def NormalizedPulse.from_formatted_records (records : List FormattedRecord)
    (fps : Nat) : List NormalizedPulse :=
  normalizeRecords fps records 0 0

/-- The external pulse filter collaborator.  Modelled from the spec:
`pulse_filter.rs` is not in the sources; a filter accepts or rejects
normalized pulses by an opaque criterion. -/
structure PulseFilter where
  keep : NormalizedPulse → Bool

/-- `PulseFilter::filter_pulses`.  Modelled from the spec: retains a
subsequence of the input pulses. -/
def PulseFilter.filter_pulses (f : PulseFilter) (pulses : List NormalizedPulse)
    (fps : Nat) : Except PRError (List NormalizedPulse) :=
  .ok (pulses.filter f.keep)

/-- The raw-record slicing loop of `get_raw_records`: slice the pulse
buffer into `num_pulses` blocks of `PULSE_SIZE` bytes. -/
def splitRecords : List Byte → Nat → List RawRecord
  | _, 0 => []
  | bs, k + 1 => bs.take PULSE_SIZE :: splitRecords (bs.drop PULSE_SIZE) k

/-- `PulseReader::get_raw_records`: look the aperture up in the index
(the source unwraps the lookup, so a missing aperture panics), seek to
its offset, read and parse the aperture header, then read and slice the
raw record block.  Returns the reader with its advanced cursor. -/
def PulseReader.get_raw_records (r : PulseReader) (aperture : Nat) :
    Except PRError ((List RawRecord × ApertureHeader) × PulseReader) :=
  match r.index.get aperture with
  | none => .error .panicked
  | some byte_loc =>
    match readExact r.file byte_loc READ_HEADER_SIZE with
    | none => .error .ioError
    | some buffer =>
      let aperture_header := ApertureHeader.new buffer byte_loc
      match readExact r.file (byte_loc + READ_HEADER_SIZE)
          (PULSE_SIZE * aperture_header.num_pulses) with
      | none => .error .ioError
      | some pulse_buffer =>
        .ok ((splitRecords pulse_buffer aperture_header.num_pulses, aperture_header),
          { r with pos := byte_loc + READ_HEADER_SIZE
                          + PULSE_SIZE * aperture_header.num_pulses })

/-- `PulseReader::get_all_records`: format every raw record of the
aperture.  The source unwraps the inner `get_raw_records` result, so
any inner failure (missing aperture or short read) is a panic. -/
def PulseReader.get_all_records (r : PulseReader) (aperture : Nat) :
    Except PRError ((List FormattedRecord × ApertureHeader) × PulseReader) :=
  match r.get_raw_records aperture with
  | .error _ => .error .panicked
  | .ok ((raw_records, aperture_header), r') =>
    .ok ((raw_records.enum.map
            (fun p => FormattedRecord.from_raw p.2 r.record_types p.1),
          aperture_header), r')

/-- `PulseReader::get_pulses`: normalize the formatted records and
optionally apply the external filter. -/
def PulseReader.get_pulses (r : PulseReader) (aperture : Nat)
    (pulse_filter : Option PulseFilter) :
    Except PRError ((List NormalizedPulse × ApertureHeader) × PulseReader) :=
  match r.get_all_records aperture with
  | .error e => .error e
  | .ok ((records, aperture_header), r') =>
    let pulse_records := NormalizedPulse.from_formatted_records records r.fps
    match pulse_filter with
    | some filter =>
      match filter.filter_pulses pulse_records r.fps with
      | .error e => .error e
      | .ok filtered => .ok ((filtered, aperture_header), r')
    | none => .ok ((pulse_records, aperture_header), r')

/-- The sizing loop of `copy_apertures_to_new_file` (lines 176-189 of
the source): walk the sorted aperture list, resolving each identifier
through the index (the source unwraps the lookup, so a missing
identifier panics), reading its per-aperture header, and accumulating
the new byte location and byte length of each aperture.  This loop runs
before the destination file is created. -/
def computeSpans (r : PulseReader) : List Nat → Nat → Except PRError (List (Nat × Nat))
  | [], _ => .ok []
  | ap :: rest, offset =>
    match r.index.get ap with
    | none => .error .panicked
    | some byte_loc =>
      match readExact r.file byte_loc READ_HEADER_SIZE with
      | none => .error .ioError
      | some buffer =>
        let aperture_header := ApertureHeader.new buffer byte_loc
        let len := READ_HEADER_SIZE + aperture_header.num_pulses * PULSE_SIZE
        match computeSpans r rest (offset + len) with
        | .error e => .error e
        | .ok spans => .ok ((offset, len) :: spans)

/-- The copy loop of `copy_apertures_to_new_file` (lines 216-222): for
each aperture, re-resolve its byte location and read its whole byte
span (header plus records) from the source file.  Also returns the
final cursor position of the source file. -/
def fetchSpans (r : PulseReader) : List Nat → List Nat → Nat →
    Except PRError (List (List Byte) × Nat)
  | [], _, p => .ok ([], p)
  | ap :: rest, lens, p =>
    match lens with
    | [] => .error .ioError
    | len :: lens' =>
      match r.index.get ap with
      | none => .error .panicked
      | some byte_loc =>
        match readExact r.file byte_loc len with
        | none => .error .ioError
        | some span =>
          match fetchSpans r rest lens' (byte_loc + len) with
          | .error e => .error e
          | .ok (spans, pf) => .ok (span :: spans, pf)

/-- `PulseReader::copy_apertures_to_new_file`: sort a copy of the
requested aperture list, size every requested aperture (before the
destination exists), then emit the new file: the rewritten header (same
fields, but `num_reads` is the request count and `index_offset` the end
of the copied data), the byte range between the original header and the
data section verbatim, each aperture's span verbatim in sorted order,
the index magic, and one `(u32 id, u64 offset)` index record per
aperture.  The returned byte list is the destination file's content and
the returned reader carries the moved source cursor.  The source
performs no duplicate check on the aperture list. -/
def PulseReader.copy_apertures_to_new_file (r : PulseReader) (apertures : List Nat) :
    Except PRError (List Byte × PulseReader) :=
  let aps := List.insertionSort (· ≤ ·) apertures
  match computeSpans r aps r.header.data_offset with
  | .error e => .error e
  | .ok spans =>
    let lens := spans.map (fun s => s.2)
    let new_ap_byte_loc := spans.map (fun s => s.1)
    let offset := r.header.data_offset + lens.sum
    let new_file_header :=
      { r.header with num_reads := aps.length, index_offset := offset }
    match readExact r.file FILE_HEADER_SIZE_FULL
        (r.header.data_offset - FILE_HEADER_SIZE_FULL) with
    | none => .error .ioError
    | some remaining_header_buffer =>
      match fetchSpans r aps lens r.header.data_offset with
      | .error e => .error e
      | .ok (span_bytes, final_pos) =>
        .ok (new_file_header.write_all ++ remaining_header_buffer ++
               span_bytes.flatten ++ leEncode 8 INDEX_SECTION_MAGIC ++
               ((aps.zip new_ap_byte_loc).map
                 (fun p => leEncode 4 p.1 ++ leEncode 8 p.2)).flatten,
             { r with pos := final_pos })

/-- The per-aperture header an aperture query parses at byte location
`loc` of `file`. -/
def hdrAt (file : List Byte) (loc : Nat) : ApertureHeader :=
  ApertureHeader.new ((file.drop loc).take READ_HEADER_SIZE) loc

/-- The on-disk byte length of the aperture whose header sits at `loc`:
its header plus its raw records. -/
def spanLenAt (file : List Byte) (loc : Nat) : Nat :=
  READ_HEADER_SIZE + (hdrAt file loc).num_pulses * PULSE_SIZE

/-- The full byte span of the aperture whose header sits at `loc`. -/
def spanAt (file : List Byte) (loc : Nat) : List Byte :=
  (file.drop loc).take (spanLenAt file loc)

/-- The aperture at `loc` lies entirely within the file. -/
def spanOk (file : List Byte) (loc : Nat) : Prop :=
  loc + spanLenAt file loc ≤ file.length

instance (file : List Byte) (loc : Nat) : Decidable (spanOk file loc) := by
  unfold spanOk; infer_instance

/-- The byte location the index of `r` assigns to aperture `ap` (0 when
absent; only used underneath a successful-lookup hypothesis). -/
def locOf (r : PulseReader) (ap : Nat) : Nat :=
  (r.index.get ap).getD 0

/-- Well-formedness of an opened source file, the structural invariants
of a valid pulses.bin (spec section 3): the reader was opened from the
file; the record-type table and metadata lie between the fixed header
and the data section; the data section precedes the index section; each
indexed aperture's span lies within the file; and the index has no
duplicate identifiers. -/
def ValidSource (file : List Byte) (r : PulseReader) : Prop :=
  PulseReader.openFile file = some r ∧
  FILE_HEADER_SIZE_FULL + 4 * r.header.num_encoding_records + r.header.metadata_length ≤
    r.header.data_offset ∧
  r.header.data_offset ≤ r.header.index_offset ∧
  (∀ e ∈ r.index.entries, spanOk file e.2) ∧
  (r.index.apertures).Nodup

instance (file : List Byte) (r : PulseReader) : Decidable (ValidSource file r) := by
  unfold ValidSource; infer_instance

/-- Build a byte list from natural number literals (test data helper). -/
def mkBytes (l : List Nat) : List Byte :=
  l.map (fun n => ⟨n % 256, Nat.mod_lt _ (by norm_num)⟩)

/-- A concrete two-aperture pulses.bin: one record-type entry
(type 1, 8 bits, offset 0), a two-byte metadata blob, aperture 10 at
byte 54 with one raw record, aperture 20 at byte 94 with none, and the
index section at byte 118. -/
def tfile : List Byte :=
  PulseFileHeader.write_all ⟨PULSE_FILE_MAGIC, 1, 2, 118, 54, 2⟩ ++
  mkBytes [1, 8, 0, 0] ++
  mkBytes [123, 125] ++
  (leEncode 8 10 ++ leEncode 4 1 ++ leEncode 4 2 ++ leEncode 8 1) ++
  mkBytes [1, 5, 0, 3, 0, 10, 0, 20, 0, 30, 0, 40, 0, 7, 8, 0] ++
  (leEncode 8 20 ++ leEncode 4 3 ++ leEncode 4 4 ++ leEncode 8 0) ++
  leEncode 8 INDEX_SECTION_MAGIC ++
  (leEncode 4 10 ++ leEncode 8 54) ++ (leEncode 4 20 ++ leEncode 8 94)

/-- The reader opened on `tfile`. -/
def tReader : PulseReader := (PulseReader.openFile tfile).getD default

/-- A concrete one-aperture pulses.bin whose index entry `5` points at
an aperture block whose own header carries well id `7`: an
index-corruption scenario. -/
def tfile2 : List Byte :=
  PulseFileHeader.write_all ⟨PULSE_FILE_MAGIC, 0, 0, 72, 48, 1⟩ ++
  (leEncode 8 7 ++ leEncode 4 0 ++ leEncode 4 0 ++ leEncode 8 0) ++
  leEncode 8 INDEX_SECTION_MAGIC ++ (leEncode 4 5 ++ leEncode 8 48)

/-- The reader opened on `tfile2`. -/
def tReader2 : PulseReader := (PulseReader.openFile tfile2).getD default

/-- A concrete zero-aperture pulses.bin whose single record-type entry
declares a bit width of 16. -/
def cfile9 : List Byte :=
  PulseFileHeader.write_all ⟨PULSE_FILE_MAGIC, 1, 0, 52, 52, 0⟩ ++
  mkBytes [1, 16, 0, 0] ++
  leEncode 8 INDEX_SECTION_MAGIC

example : PulseReader.openFile tfile = some tReader := by decide
example : tReader.index.entries = [(10, 54), (20, 94)] := by decide
example : ValidSource tfile tReader := by decide
example : PulseReader.openFile tfile2 = some tReader2 := by decide
example : (PulseReader.openFile cfile9).isSome = true := by decide
example : tReader.header = ⟨PULSE_FILE_MAGIC, 1, 2, 118, 54, 2⟩ := by decide

deriving instance DecidableEq for Except

theorem splitRecords_length (n : Nat) (bs : List Byte) :
    (splitRecords bs n).length = n := by
  induction n generalizing bs with
  | zero => rfl
  | succ k ih => simp [splitRecords, ih]

theorem get_raw_records_ok {r : PulseReader} {ap : Nat}
    {raws : List RawRecord} {ah : ApertureHeader} {r' : PulseReader}
    (h : r.get_raw_records ap = .ok ((raws, ah), r')) :
    raws.length = ah.num_pulses := by
  unfold PulseReader.get_raw_records at h
  split at h
  · exact absurd h (by simp)
  · split at h
    · exact absurd h (by simp)
    · dsimp only at h
      split at h
      · exact absurd h (by simp)
      · rename_i heq
        injection h with h1
        injection h1 with h2 h3
        injection h2 with h4 h5
        subst h4 h5
        exact splitRecords_length _ _

/-- C2: whenever `get_all_records` returns, the record vector's length
equals the `num_pulses` field of the ApertureHeader returned with it. -/
theorem get_all_records_length {r : PulseReader} {ap : Nat}
    {recs : List FormattedRecord} {ah : ApertureHeader} {r' : PulseReader}
    (h : r.get_all_records ap = .ok ((recs, ah), r')) :
    recs.length = ah.num_pulses := by
  unfold PulseReader.get_all_records at h
  split at h
  · exact absurd h (by simp)
  · rename_i x heq
    injection h with h1
    injection h1 with h2 h3
    injection h2 with h4 h5
    subst h4 h5
    rw [List.length_map, List.enum_length]
    exact get_raw_records_ok heq

/-- The formatted records of aperture 10 of `tfile`. -/
def tRecs10 : List FormattedRecord :=
  [⟨0, 1, 5, 3, ⟨10, 256⟩, ⟨20, 256⟩, ⟨30, 256⟩, ⟨40, 256⟩, ⟨7, 256⟩, ⟨8, 256⟩, none, none⟩]

/-- The aperture header of aperture 10 of `tfile`. -/
def tAh10 : ApertureHeader := ⟨10, 1, 2, 1, 54⟩

/-- The reader state after querying aperture 10 of `tfile`. -/
def tReaderA10 : PulseReader := { tReader with pos := 94 }

/-- C2 witness: on `tfile`, aperture 10 returns one record and its
header declares one pulse. -/
theorem get_all_records_length_witness :
    tReader.get_all_records 10 = .ok ((tRecs10, tAh10), tReaderA10) ∧
    tRecs10.length = tAh10.num_pulses :=
  ⟨by decide, @get_all_records_length tReader 10 tRecs10 tAh10 tReaderA10 (by decide)⟩

/-- C3 (amended): an aperture identifier absent from the index makes
`get_all_records` and `get_pulses` fail by panic (the source unwraps the
index lookup), not by a returned NotFound error. -/
theorem absent_aperture_panics (r : PulseReader) (ap : Nat)
    (h : r.index.get ap = none) :
    r.get_all_records ap = .error .panicked ∧
    r.get_pulses ap none = .error .panicked := by
  have hraw : r.get_raw_records ap = .error .panicked := by
    unfold PulseReader.get_raw_records
    rw [h]
  have hall : r.get_all_records ap = .error .panicked := by
    unfold PulseReader.get_all_records
    rw [hraw]
  have hpul : r.get_pulses ap none = .error .panicked := by
    unfold PulseReader.get_pulses
    rw [hall]
  exact ⟨hall, hpul⟩

/-- C3 witness: aperture 99 is absent from `tfile`'s index and both
queries panic on it. -/
theorem absent_aperture_panics_witness :
    tReader.index.get 99 = none ∧
    (tReader.get_all_records 99 = .error .panicked ∧
     tReader.get_pulses 99 none = .error .panicked) :=
  ⟨by decide, absent_aperture_panics tReader 99 (by decide)⟩

/-- C3 counterexample: on `tfile`, querying the absent aperture 99
yields the modelled panic outcome, which is not the NotFound error the
claim asserts. -/
theorem absent_aperture_not_notFound :
    tReader.get_all_records 99 = .error .panicked ∧
    tReader.get_pulses 99 none = .error .panicked ∧
    PRError.panicked ≠ PRError.notFound := by
  refine ⟨by decide, by decide, by decide⟩

theorem normalizeRecords_length_le (fps : Nat) (l : List FormattedRecord) :
    ∀ (c e : Nat), (normalizeRecords fps l c e).length ≤ l.length := by
  induction l with
  | nil => intro c e; simp [normalizeRecords]
  | cons rec rest ih =>
    intro c e
    by_cases hp : isPulseRecord rec
    · simp only [normalizeRecords, hp, if_true, List.length_cons]
      exact Nat.succ_le_succ (ih _ _)
    · simp only [normalizeRecords, hp, if_false, List.length_cons]
      exact Nat.le_succ_of_le (ih _ _)

/-- C8: whenever `get_all_records` returns records for an aperture,
`get_pulses` with no filter returns at most that many pulses
(normalization only drops records). -/
theorem get_pulses_length_le {r : PulseReader} {ap : Nat}
    {recs : List FormattedRecord} {ah : ApertureHeader} {r' : PulseReader}
    (h : r.get_all_records ap = .ok ((recs, ah), r')) :
    r.get_pulses ap none =
      .ok ((NormalizedPulse.from_formatted_records recs r.fps, ah), r') ∧
    (NormalizedPulse.from_formatted_records recs r.fps).length ≤ recs.length := by
  constructor
  · unfold PulseReader.get_pulses
    rw [h]
  · exact normalizeRecords_length_le _ _ _ _

/-- C8 witness: on `tfile`, aperture 10 yields one record and one
normalized pulse. -/
theorem get_pulses_length_le_witness :
    tReader.get_all_records 10 = .ok ((tRecs10, tAh10), tReaderA10) ∧
    (tReader.get_pulses 10 none =
       .ok ((NormalizedPulse.from_formatted_records tRecs10 tReader.fps, tAh10), tReaderA10) ∧
     (NormalizedPulse.from_formatted_records tRecs10 tReader.fps).length ≤ tRecs10.length) :=
  ⟨by decide, @get_pulses_length_le tReader 10 tRecs10 tAh10 tReaderA10 (by decide)⟩

/-- Everything a successful `open` guarantees about the resulting
reader, in terms of the file's bytes. -/
theorem openFile_inv {file : List Byte} {r : PulseReader}
    (h : PulseReader.openFile file = some r) :
    r.file = file ∧
    r.header = PulseFileHeader.new (file.take FILE_HEADER_SIZE_FULL) ∧
    FILE_HEADER_SIZE_FULL ≤ file.length ∧
    r.header.validate = true ∧
    readExact file FILE_HEADER_SIZE_FULL (4 * r.header.num_encoding_records) =
      some ((file.drop FILE_HEADER_SIZE_FULL).take (4 * r.header.num_encoding_records)) ∧
    r.record_types =
      parseRecordTypes ((file.drop FILE_HEADER_SIZE_FULL).take (4 * r.header.num_encoding_records))
        r.header.num_encoding_records ∧
    readExact file (FILE_HEADER_SIZE_FULL + 4 * r.header.num_encoding_records)
        r.header.metadata_length = some r.raw_metadata ∧
    r.metadata = r.raw_metadata ∧
    r.fps = metadataFps r.raw_metadata ∧
    r.trimmed = metadataTrimmed r.raw_metadata ∧
    leDecode ((file.drop r.header.index_offset).take 8) = INDEX_SECTION_MAGIC ∧
    r.header.index_offset + 8 + INDEX_RECORD_SIZE * r.header.num_reads ≤ file.length ∧
    r.index = PulseFileIndex.new
      ((file.drop (r.header.index_offset + 8)).take (INDEX_RECORD_SIZE * r.header.num_reads))
      r.header.num_reads := by
  unfold PulseReader.openFile at h
  split at h
  · exact absurd h (by simp)
  · rename_i header_buffer heq1
    dsimp only at h
    split at h
    · rename_i hval
      split at h
      · exact absurd h (by simp)
      · rename_i record_buffer heq2
        split at h
        · exact absurd h (by simp)
        · rename_i metadata_buffer heq3
          split at h
          · exact absurd h (by simp)
          · rename_i index_magic_buffer heq4
            split at h
            · rename_i hmagic
              split at h
              · exact absurd h (by simp)
              · rename_i index_buffer heq5
                injection h with h'
                subst h'
                obtain ⟨hle1, hbuf1, hlen1⟩ := readExact_eq_some heq1
                rw [List.drop_zero] at hbuf1
                subst hbuf1
                obtain ⟨hle2, hbuf2, hlen2⟩ := readExact_eq_some heq2
                subst hbuf2
                obtain ⟨hle3, hbuf3, hlen3⟩ := readExact_eq_some heq3
                subst hbuf3
                obtain ⟨hle4, hbuf4, hlen4⟩ := readExact_eq_some heq4
                subst hbuf4
                obtain ⟨hle5, hbuf5, hlen5⟩ := readExact_eq_some heq5
                subst hbuf5
                refine ⟨rfl, rfl, by omega, hval, heq2, rfl, heq3, rfl, rfl, rfl,
                  hmagic, ?_, rfl⟩
                dsimp only
                omega
            · exact absurd h (by simp)
    · exact absurd h (by simp)

theorem parseRecordTypes_mem {bs : List Byte} {n : Nat} {rt : PulseRecordType}
    (h : rt ∈ parseRecordTypes bs n) :
    rt.scale = 1 <<< (rt.bits % 16) := by
  induction n generalizing bs with
  | zero => exact absurd h (by simp [parseRecordTypes])
  | succ k ih =>
    simp only [parseRecordTypes, List.mem_cons] at h
    rcases h with h | h
    · subst h; rfl
    · exact ih h

/-- C9 (amended): for every record-type table entry parsed by open, the
stored scale is `2 ^ (bits mod 16)` — the `u16` shift masks its shift
amount — and so equals `2 ^ bits` exactly when the declared bit width is
below 16. -/
theorem record_type_scale {file : List Byte} {r : PulseReader}
    (hopen : PulseReader.openFile file = some r)
    {rt : PulseRecordType} (hrt : rt ∈ r.record_types) :
    rt.scale = 2 ^ (rt.bits % 16) ∧ (rt.bits < 16 → rt.scale = 2 ^ rt.bits) := by
  obtain ⟨-, -, -, -, -, hrec, -⟩ := openFile_inv hopen
  rw [hrec] at hrt
  have hs := parseRecordTypes_mem hrt
  rw [Nat.shiftLeft_eq, one_mul] at hs
  exact ⟨hs, fun hb => by rw [hs, Nat.mod_eq_of_lt hb]⟩

/-- C9 witness: `tfile`'s single record-type entry declares 8 bits and
its scale is 256. -/
theorem record_type_scale_witness :
    PulseReader.openFile tfile = some tReader ∧
    (⟨1, 8, 256, 0⟩ : PulseRecordType) ∈ tReader.record_types ∧
    ((⟨1, 8, 256, 0⟩ : PulseRecordType).scale =
       2 ^ ((⟨1, 8, 256, 0⟩ : PulseRecordType).bits % 16) ∧
     ((⟨1, 8, 256, 0⟩ : PulseRecordType).bits < 16 →
       (⟨1, 8, 256, 0⟩ : PulseRecordType).scale =
         2 ^ (⟨1, 8, 256, 0⟩ : PulseRecordType).bits)) :=
  ⟨by decide, by decide,
    @record_type_scale tfile tReader (by decide) ⟨1, 8, 256, 0⟩ (by decide)⟩

/-- C9 counterexample: a record-type entry declaring 16 bits parses to
scale 1 (the `u16` shift overflows), not the claimed `2 ^ 16`. -/
theorem record_type_scale_counterexample :
    (PulseReader.openFile cfile9).map (fun r => r.record_types) =
      some [⟨1, 16, 1, 0⟩] ∧
    (1 : Nat) ≠ 2 ^ 16 :=
  ⟨by decide, by decide⟩


theorem computeSpans_error {r : PulseReader} {aps : List Nat} {base : Nat} {e : PRError}
    (h : computeSpans r aps base = .error e) : e = .panicked ∨ e = .ioError := by
  induction aps generalizing base with
  | nil => exact absurd h (by simp [computeSpans])
  | cons ap rest ih =>
    unfold computeSpans at h
    split at h
    · injection h with h'; exact Or.inl h'.symm
    · split at h
      · injection h with h'; exact Or.inr h'.symm
      · dsimp only at h
        split at h
        · rename_i e' heq
          injection h with h'
          subst h'
          exact ih heq
        · exact absurd h (by simp)

theorem fetchSpans_error {r : PulseReader} {aps lens : List Nat} {p : Nat} {e : PRError}
    (h : fetchSpans r aps lens p = .error e) : e = .panicked ∨ e = .ioError := by
  induction aps generalizing lens p with
  | nil => exact absurd h (by simp [fetchSpans])
  | cons ap rest ih =>
    unfold fetchSpans at h
    split at h
    · injection h with h'; exact Or.inr h'.symm
    · split at h
      · injection h with h'; exact Or.inl h'.symm
      · split at h
        · injection h with h'; exact Or.inr h'.symm
        · split at h
          · rename_i e' heq
            injection h with h'
            subst h'
            exact ih heq
          · exact absurd h (by simp)

/-- C4 (amended): `copy_apertures_to_new_file` performs no duplicate
check at all — it never fails with InvalidInput; its only failure
outcomes are the panic of a missing index entry and an I/O error. -/
theorem copy_never_invalidInput (r : PulseReader) (aps : List Nat) :
    ∀ e : PRError, r.copy_apertures_to_new_file aps = .error e →
      e = .panicked ∨ e = .ioError := by
  intro e h
  unfold PulseReader.copy_apertures_to_new_file at h
  dsimp only at h
  split at h
  · rename_i heq
    injection h with h'
    subst h'
    exact computeSpans_error heq
  · split at h
    · injection h with h'; exact Or.inr h'.symm
    · split at h
      · rename_i heq
        injection h with h'
        subst h'
        exact fetchSpans_error heq
      · exact absurd h (by simp)

/-- C4 witness: on `tfile`, requesting the absent aperture 99 makes the
copy fail, and its failure kind is indeed panic or I/O error. -/
theorem copy_never_invalidInput_witness :
    tReader.copy_apertures_to_new_file [10, 99] = .error .panicked ∧
    (PRError.panicked = .panicked ∨ PRError.panicked = .ioError) :=
  ⟨by decide, copy_never_invalidInput tReader [10, 99] .panicked (by decide)⟩

/-- C4 counterexample: a duplicated aperture list is not rejected — the
copy of `[10, 10]` succeeds instead of failing with InvalidInput. -/
theorem copy_duplicates_not_rejected :
    ¬ ([10, 10] : List Nat).Nodup ∧
    (tReader.copy_apertures_to_new_file [10, 10]).isOk = true :=
  ⟨by decide, by decide⟩

theorem computeSpans_missing {r : PulseReader} {aps : List Nat} {base : Nat}
    (hmiss : ∃ ap ∈ aps, r.index.get ap = none)
    (hreads : ∀ ap ∈ aps,
      ((r.index.get ap).all
        (fun loc => decide (loc + READ_HEADER_SIZE ≤ r.file.length))) = true) :
    computeSpans r aps base = .error .panicked := by
  induction aps generalizing base with
  | nil => obtain ⟨ap, hap, -⟩ := hmiss; exact absurd hap (by simp)
  | cons a rest ih =>
    obtain ⟨ap, hap, hnone⟩ := hmiss
    rcases List.mem_cons.mp hap with rfl | hmem
    · unfold computeSpans
      rw [hnone]
    · cases hget : r.index.get a with
      | none => unfold computeSpans; rw [hget]
      | some loc =>
        have hr := hreads a (List.mem_cons_self a rest)
        rw [hget, Option.all_some, decide_eq_true_eq] at hr
        unfold computeSpans
        rw [hget]
        dsimp only
        rw [readExact_of_le hr]
        dsimp only
        rw [ih ⟨ap, hmem, hnone⟩ (fun b hb => hreads b (List.mem_cons_of_mem a hb))]

/-- C5 (amended): a requested aperture identifier absent from the
source index makes `copy_apertures_to_new_file` fail by panic (the
sizing loop unwraps the index lookup) rather than return NotFound; the
failure occurs in the sizing loop, which the source runs before it
creates the destination file.  The hypothesis keeps the per-aperture
header reads of the apertures that are present from failing first. -/
theorem copy_absent_aperture_panics (r : PulseReader) (aps : List Nat)
    (hmiss : ∃ ap ∈ aps, r.index.get ap = none)
    (hreads : ∀ ap ∈ aps,
      ((r.index.get ap).all
        (fun loc => decide (loc + READ_HEADER_SIZE ≤ r.file.length))) = true) :
    computeSpans r (List.insertionSort (· ≤ ·) aps) r.header.data_offset =
      .error .panicked ∧
    r.copy_apertures_to_new_file aps = .error .panicked := by
  have hperm := List.perm_insertionSort (· ≤ ·) aps
  have hspans : computeSpans r (List.insertionSort (· ≤ ·) aps) r.header.data_offset =
      .error .panicked := by
    obtain ⟨ap, hap, hnone⟩ := hmiss
    refine computeSpans_missing ⟨ap, ?_, hnone⟩ ?_
    · exact hperm.mem_iff.mpr hap
    · intro b hb
      exact hreads b (hperm.mem_iff.mp hb)
  refine ⟨hspans, ?_⟩
  unfold PulseReader.copy_apertures_to_new_file
  dsimp only
  rw [hspans]

/-- C5 witness: requesting `[10, 99]` on `tfile` (99 is absent) panics
in the sizing loop, before the destination exists. -/
theorem copy_absent_aperture_panics_witness :
    (∃ ap ∈ ([10, 99] : List Nat), tReader.index.get ap = none) ∧
    (∀ ap ∈ ([10, 99] : List Nat),
      ((tReader.index.get ap).all
        (fun loc => decide (loc + READ_HEADER_SIZE ≤ tReader.file.length))) = true) ∧
    (computeSpans tReader (List.insertionSort (· ≤ ·) ([10, 99] : List Nat))
        tReader.header.data_offset = .error .panicked ∧
     tReader.copy_apertures_to_new_file [10, 99] = .error .panicked) :=
  ⟨by decide, by decide,
    copy_absent_aperture_panics tReader [10, 99] (by decide) (by decide)⟩

/-- C5 counterexample: the failure on an absent aperture is the
modelled panic, not a returned NotFound error. -/
theorem copy_absent_aperture_not_notFound :
    tReader.copy_apertures_to_new_file [10, 99] = .error .panicked ∧
    PRError.panicked ≠ PRError.notFound :=
  ⟨by decide, by decide⟩

/-- C6 (amended): `get_raw_records` performs no identifier check on the
parsed per-aperture header — when the index lookup and both reads
succeed, it returns Ok even though the header's own well id differs
from the requested aperture identifier. -/
theorem get_raw_records_no_mismatch_check (r : PulseReader) (ap loc : Nat)
    (hb pb : List Byte)
    (hget : r.index.get ap = some loc)
    (hhdr : readExact r.file loc READ_HEADER_SIZE = some hb)
    (hrec : readExact r.file (loc + READ_HEADER_SIZE)
      (PULSE_SIZE * (ApertureHeader.new hb loc).num_pulses) = some pb)
    (hmismatch : (ApertureHeader.new hb loc).well_id ≠ ap) :
    r.get_raw_records ap =
      .ok ((splitRecords pb (ApertureHeader.new hb loc).num_pulses,
            ApertureHeader.new hb loc),
        { r with pos := loc + READ_HEADER_SIZE
                        + PULSE_SIZE * (ApertureHeader.new hb loc).num_pulses }) := by
  unfold PulseReader.get_raw_records
  rw [hget]
  dsimp only
  rw [hhdr]
  dsimp only
  rw [hrec]

/-- C6 witness: on `tfile2`, index entry 5 points at a block whose
header carries well id 7, and the raw decode succeeds regardless. -/
theorem get_raw_records_no_mismatch_check_witness :
    tReader2.index.get 5 = some 48 ∧
    readExact tReader2.file 48 READ_HEADER_SIZE = some ((tfile2.drop 48).take 24) ∧
    readExact tReader2.file (48 + READ_HEADER_SIZE)
      (PULSE_SIZE * (ApertureHeader.new ((tfile2.drop 48).take 24) 48).num_pulses) =
      some [] ∧
    (ApertureHeader.new ((tfile2.drop 48).take 24) 48).well_id ≠ 5 ∧
    tReader2.get_raw_records 5 =
      .ok ((splitRecords [] (ApertureHeader.new ((tfile2.drop 48).take 24) 48).num_pulses,
            ApertureHeader.new ((tfile2.drop 48).take 24) 48),
        { tReader2 with pos := 48 + READ_HEADER_SIZE
          + PULSE_SIZE * (ApertureHeader.new ((tfile2.drop 48).take 24) 48).num_pulses }) :=
  ⟨by decide, by decide, by decide, by decide,
    get_raw_records_no_mismatch_check tReader2 5 48 ((tfile2.drop 48).take 24) []
      (by decide) (by decide) (by decide) (by decide)⟩

/-- C6 counterexample: on `tfile2` the header parsed for aperture 5
carries well id 7, yet the decode returns Ok instead of failing with
an ApertureMismatch format error. -/
theorem no_aperture_mismatch_error :
    (tReader2.get_raw_records 5).toOption.map (fun x => x.1.2.well_id) = some 7 ∧
    (tReader2.get_all_records 5).isOk = true ∧ (7 : Nat) ≠ 5 :=
  ⟨by decide, by decide, by decide⟩

/-- C10: a completed `copy_apertures_to_new_file` changes none of the
reader's fields except the file cursor (the caller's aperture list is
untouched by construction in this embedding — the source sorts a
`to_vec` copy). -/
theorem copy_frame (r : PulseReader) (aps : List Nat) {out : List Byte}
    {r' : PulseReader} (h : r.copy_apertures_to_new_file aps = .ok (out, r')) :
    r'.header = r.header ∧ r'.record_types = r.record_types ∧
    r'.raw_metadata = r.raw_metadata ∧ r'.metadata = r.metadata ∧
    r'.fps = r.fps ∧ r'.trimmed = r.trimmed ∧ r'.index = r.index ∧
    r'.file = r.file := by
  unfold PulseReader.copy_apertures_to_new_file at h
  dsimp only at h
  split at h
  · exact absurd h (by simp)
  · split at h
    · exact absurd h (by simp)
    · split at h
      · exact absurd h (by simp)
      · injection h with h'
        injection h' with h1 h2
        subst h2
        exact ⟨rfl, rfl, rfl, rfl, rfl, rfl, rfl, rfl⟩

/-- The result of copying aperture 20 of `tfile`. -/
def tCopy20 : List Byte × PulseReader :=
  ((tReader.copy_apertures_to_new_file [20]).toOption).getD ([], default)

/-- C10 witness: copying aperture 20 of `tfile` completes and leaves
every reader field but the cursor unchanged. -/
theorem copy_frame_witness :
    tReader.copy_apertures_to_new_file [20] = .ok (tCopy20.1, tCopy20.2) ∧
    (tCopy20.2.header = tReader.header ∧
     tCopy20.2.record_types = tReader.record_types ∧
     tCopy20.2.raw_metadata = tReader.raw_metadata ∧
     tCopy20.2.metadata = tReader.metadata ∧
     tCopy20.2.fps = tReader.fps ∧ tCopy20.2.trimmed = tReader.trimmed ∧
     tCopy20.2.index = tReader.index ∧ tCopy20.2.file = tReader.file) :=
  ⟨by decide, @copy_frame tReader [20] tCopy20.1 tCopy20.2 (by decide)⟩

theorem index_get_mem {idx : PulseFileIndex} {ap loc : Nat}
    (h : idx.get ap = some loc) : (ap, loc) ∈ idx.entries := by
  unfold PulseFileIndex.get at h
  cases hf : List.find? (fun e => e.1 == ap) idx.entries with
  | none => rw [hf] at h; exact absurd h (by simp)
  | some e =>
    rw [hf] at h
    simp only [Option.map_some'] at h
    injection h with h2
    have hp := List.find?_some hf
    have hm := List.mem_of_find?_eq_some hf
    obtain ⟨e1, e2⟩ := e
    simp only [beq_iff_eq] at hp
    subst hp
    subst h2
    exact hm

theorem index_get_of_mem {idx : PulseFileIndex} {ap : Nat}
    (h : ap ∈ idx.apertures) : ∃ loc, idx.get ap = some loc := by
  unfold PulseFileIndex.apertures at h
  obtain ⟨e, he, h1⟩ := List.mem_map.mp h
  have hsome : (List.find? (fun e => e.1 == ap) idx.entries).isSome :=
    List.find?_isSome.mpr ⟨e, he, by simp [h1]⟩
  cases hf : List.find? (fun e => e.1 == ap) idx.entries with
  | none => rw [hf] at hsome; exact absurd hsome (by simp)
  | some e' =>
    refine ⟨e'.2, ?_⟩
    unfold PulseFileIndex.get
    rw [hf]
    rfl

/-- The per-aperture destination layout the sizing loop computes: each
aperture's new byte location and byte length, in request order. -/
def layout (r : PulseReader) : List Nat → Nat → List (Nat × Nat)
  | [], _ => []
  | ap :: rest, base =>
    (base, spanLenAt r.file (locOf r ap)) ::
      layout r rest (base + spanLenAt r.file (locOf r ap))

theorem layout_map_snd (r : PulseReader) (aps : List Nat) :
    ∀ base, (layout r aps base).map (fun s => s.2) =
      aps.map (fun ap => spanLenAt r.file (locOf r ap)) := by
  induction aps with
  | nil => intro base; rfl
  | cons a rest ih =>
    intro base
    simp only [layout, List.map_cons, ih]

theorem layout_mem_bound (r : PulseReader) (aps : List Nat) :
    ∀ base, ∀ pr ∈ layout r aps base,
      base ≤ pr.1 ∧ pr.1 + pr.2 ≤
        base + (aps.map (fun ap => spanLenAt r.file (locOf r ap))).sum := by
  induction aps with
  | nil => intro base pr hpr; exact absurd hpr (by simp [layout])
  | cons a rest ih =>
    intro base pr hpr
    simp only [layout, List.mem_cons] at hpr
    simp only [List.map_cons, List.sum_cons]
    rcases hpr with rfl | hpr
    · exact ⟨le_refl _, by omega⟩
    · have := ih (base + spanLenAt r.file (locOf r a)) pr hpr
      omega

theorem computeSpans_eq (r : PulseReader) {aps : List Nat}
    (h : ∀ ap ∈ aps, ∃ loc, r.index.get ap = some loc ∧
      loc + READ_HEADER_SIZE ≤ r.file.length) :
    ∀ base, computeSpans r aps base = .ok (layout r aps base) := by
  induction aps with
  | nil => intro base; rfl
  | cons a rest ih =>
    intro base
    obtain ⟨loc, hget, hle⟩ := h a (List.mem_cons_self a rest)
    have hloc : locOf r a = loc := by unfold locOf; rw [hget]; rfl
    unfold computeSpans
    rw [hget]
    dsimp only
    rw [readExact_of_le hle]
    dsimp only
    rw [ih (fun b hb => h b (List.mem_cons_of_mem a hb))]
    simp only [layout, hloc]
    rfl

theorem fetchSpans_eq (r : PulseReader) {aps : List Nat}
    (h : ∀ ap ∈ aps, ∃ loc, r.index.get ap = some loc ∧ spanOk r.file loc) :
    ∀ p0, ∃ pf, fetchSpans r aps
        (aps.map (fun ap => spanLenAt r.file (locOf r ap))) p0 =
      .ok (aps.map (fun ap => spanAt r.file (locOf r ap)), pf) := by
  induction aps with
  | nil => intro p0; exact ⟨p0, rfl⟩
  | cons a rest ih =>
    intro p0
    obtain ⟨loc, hget, hok⟩ := h a (List.mem_cons_self a rest)
    have hloc : locOf r a = loc := by unfold locOf; rw [hget]; rfl
    obtain ⟨pf, hrec⟩ := ih (fun b hb => h b (List.mem_cons_of_mem a hb))
      (loc + spanLenAt r.file loc)
    refine ⟨pf, ?_⟩
    unfold fetchSpans
    simp only [List.map_cons]
    rw [hget]
    dsimp only
    rw [hloc, readExact_of_le hok]
    dsimp only
    rw [hrec]
    rfl

/-- The destination file `copy_apertures_to_new_file` produces for the
(already sorted) aperture list `aps`: rewritten header, the byte range
between the original header and the data section verbatim, the selected
spans verbatim, the index magic, and the recomputed index records. -/
def copyOutput (r : PulseReader) (aps : List Nat) : List Byte :=
  ({ r.header with
      num_reads := aps.length,
      index_offset := r.header.data_offset +
        (aps.map (fun ap => spanLenAt r.file (locOf r ap))).sum }).write_all ++
  (r.file.drop FILE_HEADER_SIZE_FULL).take
    (r.header.data_offset - FILE_HEADER_SIZE_FULL) ++
  (aps.map (fun ap => spanAt r.file (locOf r ap))).flatten ++
  leEncode 8 INDEX_SECTION_MAGIC ++
  ((aps.zip ((layout r aps r.header.data_offset).map (fun s => s.1))).map
    (fun p => leEncode 4 p.1 ++ leEncode 8 p.2)).flatten

theorem copy_ok (r : PulseReader) (S : List Nat)
    (h : ∀ ap ∈ S, ∃ loc, r.index.get ap = some loc ∧ spanOk r.file loc)
    (h2 : FILE_HEADER_SIZE_FULL ≤ r.header.data_offset)
    (h3 : r.header.data_offset ≤ r.file.length) :
    ∃ pf, r.copy_apertures_to_new_file S =
      .ok (copyOutput r (List.insertionSort (· ≤ ·) S), { r with pos := pf }) := by
  have hperm := List.perm_insertionSort (· ≤ ·) S
  have h' : ∀ ap ∈ List.insertionSort (· ≤ ·) S,
      ∃ loc, r.index.get ap = some loc ∧ spanOk r.file loc :=
    fun ap hap => h ap (hperm.mem_iff.mp hap)
  have hcs : computeSpans r (List.insertionSort (· ≤ ·) S) r.header.data_offset =
      .ok (layout r (List.insertionSort (· ≤ ·) S) r.header.data_offset) := by
    refine computeSpans_eq r (fun ap hap => ?_) _
    obtain ⟨loc, hget, hok⟩ := h' ap hap
    refine ⟨loc, hget, ?_⟩
    unfold spanOk spanLenAt at hok
    omega
  obtain ⟨pf, hfs⟩ := fetchSpans_eq r h' r.header.data_offset
  refine ⟨pf, ?_⟩
  unfold PulseReader.copy_apertures_to_new_file
  dsimp only
  rw [hcs]
  dsimp only
  rw [readExact_of_le (show FILE_HEADER_SIZE_FULL +
    (r.header.data_offset - FILE_HEADER_SIZE_FULL) ≤ r.file.length by omega)]
  dsimp only
  rw [layout_map_snd, hfs]
  dsimp only
  unfold copyOutput
  rfl

theorem write_all_length (h : PulseFileHeader) :
    h.write_all.length = FILE_HEADER_SIZE_FULL := by
  simp [PulseFileHeader.write_all, leEncode_length, FILE_HEADER_SIZE_FULL]

theorem take8_of_append {a : List Byte} (rest : List Byte) (ha : a.length = 8) :
    (a ++ rest).take 8 = a := by
  rw [← ha, List.take_left]

theorem drop8_of_append {a : List Byte} (rest : List Byte) (ha : a.length = 8) :
    (a ++ rest).drop 8 = rest := by
  rw [← ha, List.drop_left]

theorem drop_16_eq (bs : List Byte) : bs.drop 16 = (bs.drop 8).drop 8 := by
  rw [List.drop_drop]

theorem drop_24_eq (bs : List Byte) : bs.drop 24 = ((bs.drop 8).drop 8).drop 8 := by
  rw [List.drop_drop, List.drop_drop]

theorem drop_32_eq (bs : List Byte) :
    bs.drop 32 = (((bs.drop 8).drop 8).drop 8).drop 8 := by
  rw [List.drop_drop, List.drop_drop, List.drop_drop]

theorem drop_40_eq (bs : List Byte) :
    bs.drop 40 = ((((bs.drop 8).drop 8).drop 8).drop 8).drop 8 := by
  rw [List.drop_drop, List.drop_drop, List.drop_drop, List.drop_drop]

theorem new_write_all (h : PulseFileHeader)
    (h1 : h.magic < 2 ^ 64) (h2 : h.num_encoding_records < 2 ^ 64)
    (h3 : h.metadata_length < 2 ^ 64) (h4 : h.index_offset < 2 ^ 64)
    (h5 : h.data_offset < 2 ^ 64) (h6 : h.num_reads < 2 ^ 64) :
    PulseFileHeader.new h.write_all = h := by
  have e256 : (2 : Nat) ^ 64 = 256 ^ 8 := by norm_num
  rw [e256] at h1 h2 h3 h4 h5 h6
  obtain ⟨m, n, ml, io, dof, nr⟩ := h
  simp only at h1 h2 h3 h4 h5 h6
  unfold PulseFileHeader.new PulseFileHeader.write_all
  simp only [List.append_assoc]
  simp only [drop_16_eq, drop_24_eq, drop_32_eq, drop_40_eq,
    take8_of_append _ (leEncode_length 8 _), drop8_of_append _ (leEncode_length 8 _)]
  rw [show (leEncode 8 nr).take 8 = leEncode 8 nr from
    List.take_of_length_le (by rw [leEncode_length])]
  simp only [leDecode_leEncode_of_lt h1, leDecode_leEncode_of_lt h2,
    leDecode_leEncode_of_lt h3, leDecode_leEncode_of_lt h4,
    leDecode_leEncode_of_lt h5, leDecode_leEncode_of_lt h6]

theorem parseIndexEntries_length (n : Nat) (bs : List Byte) :
    (parseIndexEntries bs n).length = n := by
  induction n generalizing bs with
  | zero => rfl
  | succ k ih => simp [parseIndexEntries, ih]

theorem parseIndexEntries_bounds (n : Nat) (bs : List Byte) :
    ∀ e ∈ parseIndexEntries bs n, e.1 < 2 ^ 32 ∧ e.2 < 2 ^ 64 := by
  induction n generalizing bs with
  | zero => intro e he; exact absurd he (by simp [parseIndexEntries])
  | succ k ih =>
    intro e he
    simp only [parseIndexEntries, List.mem_cons] at he
    rcases he with rfl | he
    · constructor
      · have := leDecode_lt (bs.take 4)
        have hlen : (bs.take 4).length ≤ 4 := by
          simp [List.length_take]
        calc leDecode (bs.take 4) < 256 ^ (bs.take 4).length := this
        _ ≤ 256 ^ 4 := Nat.pow_le_pow_right (by norm_num) hlen
        _ = 2 ^ 32 := by norm_num
      · have := leDecode_lt ((bs.drop 4).take 8)
        have hlen : ((bs.drop 4).take 8).length ≤ 8 := by
          simp [List.length_take]
        calc leDecode ((bs.drop 4).take 8) < 256 ^ ((bs.drop 4).take 8).length := this
        _ ≤ 256 ^ 8 := Nat.pow_le_pow_right (by norm_num) hlen
        _ = 2 ^ 64 := by norm_num
    · exact ih _ e he

theorem drop_12_eq (bs : List Byte) : bs.drop 12 = (bs.drop 4).drop 8 := by
  rw [List.drop_drop]

theorem take4_of_append {a : List Byte} (rest : List Byte) (ha : a.length = 4) :
    (a ++ rest).take 4 = a := by
  rw [← ha, List.take_left]

theorem drop4_of_append {a : List Byte} (rest : List Byte) (ha : a.length = 4) :
    (a ++ rest).drop 4 = rest := by
  rw [← ha, List.drop_left]

theorem parseIndexEntries_encode (ps : List (Nat × Nat))
    (hb : ∀ p ∈ ps, p.1 < 2 ^ 32 ∧ p.2 < 2 ^ 64) :
    parseIndexEntries
      ((ps.map (fun p => leEncode 4 p.1 ++ leEncode 8 p.2)).flatten) ps.length = ps := by
  induction ps with
  | nil => rfl
  | cons p rest ih =>
    obtain ⟨hp1, hp2⟩ := hb p (List.mem_cons_self p rest)
    have h1 : p.1 < 256 ^ 4 := by
      calc p.1 < 2 ^ 32 := hp1
      _ = 256 ^ 4 := by norm_num
    have h2 : p.2 < 256 ^ 8 := by
      calc p.2 < 2 ^ 64 := hp2
      _ = 256 ^ 8 := by norm_num
    simp only [List.map_cons, List.flatten_cons, List.length_cons]
    unfold parseIndexEntries
    rw [List.append_assoc, take4_of_append _ (leEncode_length 4 _),
      drop_12_eq, drop4_of_append _ (leEncode_length 4 _),
      take8_of_append _ (leEncode_length 8 _),
      drop8_of_append _ (leEncode_length 8 _),
      leDecode_leEncode_of_lt h1, leDecode_leEncode_of_lt h2,
      ih (fun q hq => hb q (List.mem_cons_of_mem p hq))]

theorem spanAt_length {file : List Byte} {loc : Nat} (h : spanOk file loc) :
    (spanAt file loc).length = spanLenAt file loc := by
  unfold spanAt
  unfold spanOk at h
  simp [List.length_take, List.length_drop]
  omega

theorem layout_length (r : PulseReader) (aps : List Nat) :
    ∀ base, (layout r aps base).length = aps.length := by
  induction aps with
  | nil => intro base; rfl
  | cons a rest ih => intro base; simp [layout, ih]

theorem encodeIdx_length (ps : List (Nat × Nat)) :
    ((ps.map (fun p => leEncode 4 p.1 ++ leEncode 8 p.2)).flatten).length =
      INDEX_RECORD_SIZE * ps.length := by
  induction ps with
  | nil => rfl
  | cons p rest ih =>
    simp only [List.map_cons, List.flatten_cons, List.length_append, ih,
      List.length_append, leEncode_length, INDEX_RECORD_SIZE, List.length_cons]
    ring

theorem spans_flatten_length {file : List Byte} (r : PulseReader) {aps : List Nat}
    (h : ∀ ap ∈ aps, spanOk file (locOf r ap)) :
    ((aps.map (fun ap => spanAt file (locOf r ap))).flatten).length =
      (aps.map (fun ap => spanLenAt file (locOf r ap))).sum := by
  induction aps with
  | nil => rfl
  | cons a rest ih =>
    simp only [List.map_cons, List.flatten_cons, List.length_append, List.sum_cons,
      spanAt_length (h a (List.mem_cons_self a rest)),
      ih (fun b hb => h b (List.mem_cons_of_mem a hb))]

theorem leDecode_take8_lt (l : List Byte) : leDecode (l.take 8) < 2 ^ 64 := by
  have h := leDecode_lt (l.take 8)
  have hlen : (l.take 8).length ≤ 8 := by simp [List.length_take]
  calc leDecode (l.take 8) < 256 ^ (l.take 8).length := h
  _ ≤ 256 ^ 8 := Nat.pow_le_pow_right (by norm_num) hlen
  _ = 2 ^ 64 := by norm_num

theorem headerFields_lt (bs : List Byte) :
    (PulseFileHeader.new bs).magic < 2 ^ 64 ∧
    (PulseFileHeader.new bs).num_encoding_records < 2 ^ 64 ∧
    (PulseFileHeader.new bs).metadata_length < 2 ^ 64 ∧
    (PulseFileHeader.new bs).index_offset < 2 ^ 64 ∧
    (PulseFileHeader.new bs).data_offset < 2 ^ 64 ∧
    (PulseFileHeader.new bs).num_reads < 2 ^ 64 := by
  unfold PulseFileHeader.new
  exact ⟨leDecode_take8_lt _, leDecode_take8_lt _, leDecode_take8_lt _,
    leDecode_take8_lt _, leDecode_take8_lt _, leDecode_take8_lt _⟩

theorem readExact_prefix (a b : List Byte) : readExact (a ++ b) 0 a.length = some a := by
  rw [readExact_of_le (by simp)]
  simp [List.take_left]

theorem readExact_prefix' (a b : List Byte) (n : Nat) (h : a.length = n) :
    readExact (a ++ b) 0 n = some a := by
  subst h
  exact readExact_prefix a b

/-- Opening the destination file that `copy_apertures_to_new_file` wrote
yields a reader whose header is the source header with the recomputed
read count and index offset, whose record-type table and metadata equal
the source's, and whose index maps the requested apertures to their
recomputed byte locations. -/
theorem open_copyOutput (file : List Byte) (r : PulseReader) (aps : List Nat)
    (hopen : PulseReader.openFile file = some r)
    (hA : FILE_HEADER_SIZE_FULL + 4 * r.header.num_encoding_records +
      r.header.metadata_length ≤ r.header.data_offset)
    (hdle : r.header.data_offset ≤ file.length)
    (hap : ∀ ap ∈ aps, r.index.get ap = some (locOf r ap) ∧ spanOk file (locOf r ap))
    (hids : ∀ ap ∈ aps, ap < 2 ^ 32)
    (hlen : aps.length < 2 ^ 64)
    (hsum : r.header.data_offset +
      (aps.map (fun ap => spanLenAt file (locOf r ap))).sum < 2 ^ 64) :
    PulseReader.openFile (copyOutput r aps) = some
      { header := { r.header with
          num_reads := aps.length,
          index_offset := r.header.data_offset +
            (aps.map (fun ap => spanLenAt file (locOf r ap))).sum }
      , record_types := r.record_types
      , raw_metadata := r.raw_metadata
      , metadata := r.raw_metadata
      , fps := r.fps
      , trimmed := r.trimmed
      , index := ⟨aps.zip ((layout r aps r.header.data_offset).map (fun s => s.1))⟩
      , file := copyOutput r aps
      , pos := r.header.data_offset +
          (aps.map (fun ap => spanLenAt file (locOf r ap))).sum + 8 +
          INDEX_RECORD_SIZE * aps.length } := by
  obtain ⟨hfile, hhdr, h48, hval, hrb, hrt, hmb, hmm, hfps, htr, hmag, hidx, hixp⟩ :=
    openFile_inv hopen
  subst hfile
  have hcF : FILE_HEADER_SIZE_FULL = 48 := rfl
  have hcI : INDEX_RECORD_SIZE = 12 := rfl
  set SG := (aps.map (fun ap => spanLenAt r.file (locOf r ap))).sum with hSG
  set NH : PulseFileHeader := { r.header with
      num_reads := aps.length,
      index_offset := r.header.data_offset + SG } with hNH
  set Hb := NH.write_all with hHb
  set rem := (r.file.drop FILE_HEADER_SIZE_FULL).take
      (r.header.data_offset - FILE_HEADER_SIZE_FULL) with hrem
  set flat := (aps.map (fun ap => spanAt r.file (locOf r ap))).flatten with hflat
  set magicB := leEncode 8 INDEX_SECTION_MAGIC with hmagicB
  set idxB := ((aps.zip ((layout r aps r.header.data_offset).map (fun s => s.1))).map
      (fun p => leEncode 4 p.1 ++ leEncode 8 p.2)).flatten with hidxB
  have hout : copyOutput r aps = Hb ++ rem ++ flat ++ magicB ++ idxB := rfl
  have hNHn : NH.num_encoding_records = r.header.num_encoding_records := rfl
  have hNHm : NH.metadata_length = r.header.metadata_length := rfl
  have hNHio : NH.index_offset = r.header.data_offset + SG := rfl
  have hNHnr : NH.num_reads = aps.length := rfl
  have hHbLen : Hb.length = FILE_HEADER_SIZE_FULL := write_all_length _
  have hremLen : rem.length = r.header.data_offset - FILE_HEADER_SIZE_FULL := by
    rw [hrem]
    simp [List.length_take, List.length_drop]
    omega
  have hflatLen : flat.length = SG :=
    spans_flatten_length r (fun ap h => (hap ap h).2)
  have hmagicLen : magicB.length = 8 := leEncode_length _ _
  have hidxLen : idxB.length = INDEX_RECORD_SIZE * aps.length := by
    rw [hidxB, encodeIdx_length]
    congr 1
    simp [List.length_zip, layout_length, List.length_map]
  have houtLen : (copyOutput r aps).length =
      r.header.data_offset + SG + 8 + INDEX_RECORD_SIZE * aps.length := by
    rw [hout]
    simp only [List.length_append, hHbLen, hremLen, hflatLen, hmagicLen, hidxLen]
    omega
  have hm := headerFields_lt (r.file.take FILE_HEADER_SIZE_FULL)
  rw [← hhdr] at hm
  have hparse : PulseFileHeader.new Hb = NH := by
    rw [hHb]
    apply new_write_all
    · exact hm.1
    · exact hm.2.1
    · exact hm.2.2.1
    · exact hsum
    · exact hm.2.2.2.2.1
    · exact hlen
  have hvalNH : NH.validate = true := hval
  have hreadA : readExact (copyOutput r aps) 0 FILE_HEADER_SIZE_FULL = some Hb := by
    rw [hout, List.append_assoc, List.append_assoc, List.append_assoc]
    exact readExact_prefix' _ _ _ hHbLen
  have hseg : ((copyOutput r aps).drop FILE_HEADER_SIZE_FULL).take
      (r.header.data_offset - FILE_HEADER_SIZE_FULL) =
      (r.file.drop FILE_HEADER_SIZE_FULL).take
        (r.header.data_offset - FILE_HEADER_SIZE_FULL) := by
    rw [hout, List.append_assoc, List.append_assoc, List.append_assoc,
      List.drop_left' hHbLen]
    rw [List.take_append_of_le_length (le_of_eq hremLen.symm),
      List.take_of_length_le (le_of_eq hremLen), hrem]
  have hreadB : readExact (copyOutput r aps) FILE_HEADER_SIZE_FULL
      (4 * NH.num_encoding_records) =
      some ((r.file.drop FILE_HEADER_SIZE_FULL).take
        (4 * r.header.num_encoding_records)) := by
    rw [hNHn]
    rw [readExact_congr_segment hseg (by omega) hdle (le_refl _) (by omega)]
    exact hrb
  have hreadC : readExact (copyOutput r aps)
      (FILE_HEADER_SIZE_FULL + 4 * NH.num_encoding_records) NH.metadata_length =
      some r.raw_metadata := by
    rw [hNHn, hNHm]
    rw [readExact_congr_segment hseg (by omega) hdle (by omega) (by omega)]
    exact hmb
  have hXlen : (Hb ++ rem ++ flat).length = r.header.data_offset + SG := by
    simp only [List.length_append, hHbLen, hremLen, hflatLen]
    omega
  have hreadD : readExact (copyOutput r aps) NH.index_offset 8 = some magicB := by
    rw [hout, List.append_assoc (Hb ++ rem ++ flat) magicB idxB]
    rw [show NH.index_offset = (Hb ++ rem ++ flat).length + 0 by rw [hXlen, hNHio]; omega]
    rw [readExact_append_right _ _ 0 8 (by simp [hmagicLen])]
    rw [List.drop_zero, take8_of_append _ hmagicLen]
  have hmagdec : leDecode magicB = INDEX_SECTION_MAGIC := by
    rw [hmagicB, leDecode_leEncode_of_lt]
    norm_num [INDEX_SECTION_MAGIC]
  have hYlen : (Hb ++ rem ++ flat ++ magicB).length =
      r.header.data_offset + SG + 8 := by
    simp only [List.length_append, hHbLen, hremLen, hflatLen, hmagicLen]
    omega
  have hreadE : readExact (copyOutput r aps) (NH.index_offset + 8)
      (INDEX_RECORD_SIZE * NH.num_reads) = some idxB := by
    rw [hout, hNHnr]
    rw [show NH.index_offset + 8 = (Hb ++ rem ++ flat ++ magicB).length + 0 by
      rw [hYlen, hNHio]]
    rw [readExact_append_right _ _ 0 (INDEX_RECORD_SIZE * aps.length)
      (by simp [hidxLen])]
    rw [List.drop_zero, List.take_of_length_le (le_of_eq hidxLen)]
  have hzl : (aps.zip ((layout r aps r.header.data_offset).map (fun s => s.1))).length
      = aps.length := by
    simp [List.length_zip, layout_length, List.length_map]
  have hparseIdx : parseIndexEntries idxB aps.length =
      aps.zip ((layout r aps r.header.data_offset).map (fun s => s.1)) := by
    rw [hidxB, ← hzl]
    apply parseIndexEntries_encode
    intro p hp
    obtain ⟨a, b⟩ := p
    have hp1 : a ∈ aps := (List.of_mem_zip hp).1
    have hp2 : b ∈ (layout r aps r.header.data_offset).map (fun s => s.1) :=
      (List.of_mem_zip hp).2
    constructor
    · exact hids a hp1
    · obtain ⟨pr, hpr, hpr1⟩ := List.mem_map.mp hp2
      have hbd := layout_mem_bound r aps r.header.data_offset pr hpr
      omega
  unfold PulseReader.openFile
  rw [hreadA]
  dsimp only
  rw [hparse]
  rw [if_pos hvalNH]
  rw [hreadB]
  dsimp only
  rw [hreadC]
  dsimp only
  rw [hreadD]
  dsimp only
  rw [if_pos hmagdec]
  rw [hreadE]
  dsimp only
  rw [hNHn, ← hrt, ← hfps, ← htr]
  unfold PulseFileIndex.new
  rw [hparseIdx]

/-- The formatted records encoded in an aperture's byte span: the raw
block behind the header, sliced and formatted.  A function of the span
bytes and the record-type table only — the heart of the round-trip
argument, since the subset writer copies spans verbatim. -/
def apRecordsOfSpan (span : List Byte) (rts : List PulseRecordType) :
    List FormattedRecord :=
  (splitRecords ((span.drop READ_HEADER_SIZE).take
      (PULSE_SIZE * (ApertureHeader.new (span.take READ_HEADER_SIZE) 0).num_pulses))
    ((ApertureHeader.new (span.take READ_HEADER_SIZE) 0).num_pulses)).enum.map
    (fun p => FormattedRecord.from_raw p.2 rts p.1)

theorem get_all_records_of_read (r : PulseReader) (ap loc np : Nat) (span : List Byte)
    (hget : r.index.get ap = some loc)
    (hspan : readExact r.file loc (READ_HEADER_SIZE + np * PULSE_SIZE) = some span)
    (hnp : (ApertureHeader.new (span.take READ_HEADER_SIZE) 0).num_pulses = np) :
    r.get_all_records ap =
      .ok ((apRecordsOfSpan span r.record_types,
            ApertureHeader.new (span.take READ_HEADER_SIZE) loc),
        { r with pos := loc + READ_HEADER_SIZE + PULSE_SIZE * np }) := by
  have hnp' : (ApertureHeader.new (span.take READ_HEADER_SIZE) loc).num_pulses = np := hnp
  have hh : readExact r.file loc READ_HEADER_SIZE = some (span.take READ_HEADER_SIZE) := by
    have h0 := readExact_sub hspan 0 READ_HEADER_SIZE (by omega)
    simpa using h0
  have hrec : readExact r.file (loc + READ_HEADER_SIZE)
      (PULSE_SIZE * (ApertureHeader.new (span.take READ_HEADER_SIZE) loc).num_pulses) =
      some ((span.drop READ_HEADER_SIZE).take (PULSE_SIZE * np)) := by
    rw [hnp']
    exact readExact_sub hspan READ_HEADER_SIZE (PULSE_SIZE * np)
      (le_of_eq (by rw [Nat.mul_comm PULSE_SIZE np]))
  have hraw : r.get_raw_records ap =
      .ok ((splitRecords ((span.drop READ_HEADER_SIZE).take (PULSE_SIZE * np)) np,
            ApertureHeader.new (span.take READ_HEADER_SIZE) loc),
        { r with pos := loc + READ_HEADER_SIZE + PULSE_SIZE * np }) := by
    unfold PulseReader.get_raw_records
    rw [hget]
    dsimp only
    rw [hh]
    dsimp only
    rw [hrec]
    rw [hnp']
  unfold PulseReader.get_all_records
  rw [hraw]
  unfold apRecordsOfSpan
  rw [hnp]

theorem index_spans_read (r : PulseReader) (out : List Byte) :
    ∀ (aps : List Nat) (base : Nat) (tail : List Byte),
      aps.Nodup →
      (∀ ap ∈ aps, spanOk r.file (locOf r ap)) →
      out.drop base = (aps.map (fun ap => spanAt r.file (locOf r ap))).flatten ++ tail →
      base ≤ out.length →
      ∀ ap ∈ aps,
        ∃ nl, (PulseFileIndex.mk
            (aps.zip ((layout r aps base).map (fun s => s.1)))).get ap = some nl ∧
          readExact out nl (spanLenAt r.file (locOf r ap)) =
            some (spanAt r.file (locOf r ap)) := by
  intro aps
  induction aps with
  | nil => intro base tail _ _ _ _ ap hap; exact absurd hap (by simp)
  | cons a rest ih =>
    intro base tail hnd hok hdrop hble ap hap
    have hLa : (spanAt r.file (locOf r a)).length = spanLenAt r.file (locOf r a) :=
      spanAt_length (hok a (List.mem_cons_self a rest))
    have hlen := congrArg List.length hdrop
    rw [List.length_drop] at hlen
    simp only [List.map_cons, List.flatten_cons, List.length_append, hLa] at hlen
    have hbase2 : base + spanLenAt r.file (locOf r a) ≤ out.length := by omega
    have hdrop2 : out.drop (base + spanLenAt r.file (locOf r a)) =
        (rest.map (fun ap => spanAt r.file (locOf r ap))).flatten ++ tail := by
      rw [← List.drop_drop]
      rw [hdrop]
      simp only [List.map_cons, List.flatten_cons, List.append_assoc]
      rw [List.drop_left' hLa]
    rcases List.mem_cons.mp hap with rfl | hmem
    · refine ⟨base, ?_, ?_⟩
      · unfold PulseFileIndex.get
        simp only [layout, List.map_cons, List.zip_cons_cons]
        rw [List.find?_cons_of_pos _ (by simp)]
        rfl
      · rw [readExact_of_le hbase2]
        congr 1
        rw [hdrop]
        simp only [List.map_cons, List.flatten_cons, List.append_assoc]
        rw [List.take_append_of_le_length (le_of_eq hLa.symm),
          List.take_of_length_le (le_of_eq hLa)]
    · have hne : a ≠ ap := by
        intro he
        subst he
        exact (List.nodup_cons.mp hnd).1 hmem
      obtain ⟨nl, hget, hread⟩ := ih (base + spanLenAt r.file (locOf r a)) tail
        (List.nodup_cons.mp hnd).2 (fun b hb => hok b (List.mem_cons_of_mem a hb))
        hdrop2 (by omega) ap hmem
      refine ⟨nl, ?_, hread⟩
      unfold PulseFileIndex.get at hget ⊢
      simp only [layout, List.map_cons, List.zip_cons_cons]
      rw [List.find?_cons_of_neg _ (by simp [hne])]
      exact hget

theorem copyOutput_drop_data (r : PulseReader) (aps : List Nat)
    (h2 : FILE_HEADER_SIZE_FULL ≤ r.header.data_offset)
    (h3 : r.header.data_offset ≤ r.file.length) :
    (copyOutput r aps).drop r.header.data_offset =
      (aps.map (fun ap => spanAt r.file (locOf r ap))).flatten ++
      (leEncode 8 INDEX_SECTION_MAGIC ++
        ((aps.zip ((layout r aps r.header.data_offset).map (fun s => s.1))).map
          (fun p => leEncode 4 p.1 ++ leEncode 8 p.2)).flatten) ∧
    r.header.data_offset ≤ (copyOutput r aps).length := by
  set SG := (aps.map (fun ap => spanLenAt r.file (locOf r ap))).sum with hSG
  set NH : PulseFileHeader := { r.header with
      num_reads := aps.length,
      index_offset := r.header.data_offset + SG } with hNH
  set Hb := NH.write_all with hHb
  set rem := (r.file.drop FILE_HEADER_SIZE_FULL).take
      (r.header.data_offset - FILE_HEADER_SIZE_FULL) with hrem
  set flat := (aps.map (fun ap => spanAt r.file (locOf r ap))).flatten with hflat
  set magicB := leEncode 8 INDEX_SECTION_MAGIC with hmagicB
  set idxB := ((aps.zip ((layout r aps r.header.data_offset).map (fun s => s.1))).map
      (fun p => leEncode 4 p.1 ++ leEncode 8 p.2)).flatten with hidxB
  have hout : copyOutput r aps = Hb ++ rem ++ flat ++ magicB ++ idxB := rfl
  have hHbLen : Hb.length = FILE_HEADER_SIZE_FULL := write_all_length _
  have hremLen : rem.length = r.header.data_offset - FILE_HEADER_SIZE_FULL := by
    rw [hrem]
    simp [List.length_take, List.length_drop]
    omega
  have hABlen : (Hb ++ rem).length = r.header.data_offset := by
    rw [List.length_append, hHbLen, hremLen]
    omega
  have hgroup : copyOutput r aps = (Hb ++ rem) ++ (flat ++ (magicB ++ idxB)) := by
    rw [hout]
    simp [List.append_assoc]
  constructor
  · rw [hgroup, List.drop_left' hABlen]
  · rw [hgroup, List.length_append]
    omega

/-- The full round-trip: under the well-formedness of the source file
and the request (a duplicate-free selection of indexed apertures whose
recomputed offsets fit in 64 bits), the copy succeeds, the destination
opens, its header carries the recomputed read count and index offset,
its index lists exactly the sorted selection, and every selected
aperture decodes to the same FormattedRecord values as in the source. -/
theorem roundtrip_main (file : List Byte) (r : PulseReader) (S : List Nat)
    (hvs : ValidSource file r)
    (hmem : ∀ ap ∈ S, ap ∈ r.index.apertures)
    (hnd : S.Nodup)
    (hlen : S.length < 2 ^ 64)
    (hsum : r.header.data_offset +
      ((List.insertionSort (· ≤ ·) S).map
        (fun ap => spanLenAt file (locOf r ap))).sum < 2 ^ 64) :
    ∃ out r' r2, r.copy_apertures_to_new_file S = .ok (out, r') ∧
      PulseReader.openFile out = some r2 ∧
      r2.header = { r.header with
        num_reads := S.length,
        index_offset := r.header.data_offset +
          ((List.insertionSort (· ≤ ·) S).map
            (fun ap => spanLenAt file (locOf r ap))).sum } ∧
      r2.index.apertures = List.insertionSort (· ≤ ·) S ∧
      r2.record_types = r.record_types ∧
      r2.raw_metadata = r.raw_metadata ∧
      r2.fps = r.fps ∧ r2.trimmed = r.trimmed ∧
      (∀ ap ∈ S, ∃ recs ah1 ah2 g1 g2,
        r.get_all_records ap = .ok ((recs, ah1), g1) ∧
        r2.get_all_records ap = .ok ((recs, ah2), g2)) := by
  obtain ⟨hopen, hA, hdi, hsp, hnodup⟩ := hvs
  obtain ⟨hfile, hhdr, h48, hval, hrb, hrt, hmb, hmm2, hfps, htr, hmag, hidx, hixp⟩ :=
    openFile_inv hopen
  subst hfile
  have hdle : r.header.data_offset ≤ r.file.length := by omega
  have hapAll : ∀ ap ∈ r.index.apertures,
      r.index.get ap = some (locOf r ap) ∧ spanOk r.file (locOf r ap) := by
    intro ap hap
    obtain ⟨loc, hget⟩ := index_get_of_mem hap
    have hmemE := index_get_mem hget
    have hsok := hsp _ hmemE
    have hlocOf : locOf r ap = loc := by unfold locOf; rw [hget]; rfl
    rw [hlocOf]
    exact ⟨hget, hsok⟩
  have hperm := List.perm_insertionSort (· ≤ ·) S
  have hndaps : (List.insertionSort (· ≤ ·) S).Nodup := hperm.nodup_iff.mpr hnd
  have hmemaps : ∀ ap ∈ List.insertionSort (· ≤ ·) S, ap ∈ r.index.apertures :=
    fun ap hap => hmem ap (hperm.mem_iff.mp hap)
  have hapS : ∀ ap ∈ List.insertionSort (· ≤ ·) S,
      r.index.get ap = some (locOf r ap) ∧ spanOk r.file (locOf r ap) :=
    fun ap hap => hapAll ap (hmemaps ap hap)
  have hids32 : ∀ ap ∈ r.index.apertures, ap < 2 ^ 32 := by
    intro ap hap
    unfold PulseFileIndex.apertures at hap
    obtain ⟨e, he, h1⟩ := List.mem_map.mp hap
    rw [hixp] at he
    unfold PulseFileIndex.new at he
    have := (parseIndexEntries_bounds _ _ e he).1
    omega
  obtain ⟨pf, hcopy⟩ := copy_ok r S
    (fun ap hap => ⟨locOf r ap, (hapAll ap (hmem ap hap)).1, (hapAll ap (hmem ap hap)).2⟩)
    (by omega) hdle
  have hopen2 := open_copyOutput r.file r (List.insertionSort (· ≤ ·) S) hopen hA hdle
    hapS (fun ap hap => hids32 ap (hmemaps ap hap))
    (by rw [hperm.length_eq]; exact hlen) hsum
  refine ⟨copyOutput r (List.insertionSort (· ≤ ·) S), { r with pos := pf }, _,
    hcopy, hopen2, ?_, ?_, rfl, rfl, rfl, rfl, ?_⟩
  · show ({ r.header with
        num_reads := (List.insertionSort (· ≤ ·) S).length,
        index_offset := r.header.data_offset +
          ((List.insertionSort (· ≤ ·) S).map
            (fun ap => spanLenAt r.file (locOf r ap))).sum } : PulseFileHeader) = _
    rw [hperm.length_eq]
  · show (PulseFileIndex.mk ((List.insertionSort (· ≤ ·) S).zip
      ((layout r (List.insertionSort (· ≤ ·) S) r.header.data_offset).map
        (fun s => s.1)))).apertures = _
    unfold PulseFileIndex.apertures
    rw [show (fun e : Nat × Nat => e.1) = Prod.fst from rfl]
    exact List.map_fst_zip _ _ (by rw [List.length_map, layout_length])
  · intro ap hapS0
    have hapsmem : ap ∈ List.insertionSort (· ≤ ·) S := hperm.mem_iff.mpr hapS0
    obtain ⟨hget, hok⟩ := hapAll ap (hmem ap hapS0)
    have hsrcRead : readExact r.file (locOf r ap)
        (READ_HEADER_SIZE + (hdrAt r.file (locOf r ap)).num_pulses * PULSE_SIZE) =
        some (spanAt r.file (locOf r ap)) := readExact_of_le hok
    have hnpSrc : (ApertureHeader.new
        ((spanAt r.file (locOf r ap)).take READ_HEADER_SIZE) 0).num_pulses =
        (hdrAt r.file (locOf r ap)).num_pulses := by
      have htake : (spanAt r.file (locOf r ap)).take READ_HEADER_SIZE =
          (r.file.drop (locOf r ap)).take READ_HEADER_SIZE := by
        unfold spanAt
        rw [List.take_take]
        congr 1
        exact Nat.min_eq_left (by unfold spanLenAt; omega)
      rw [htake]
      rfl
    have hsrc := get_all_records_of_read r ap (locOf r ap)
      ((hdrAt r.file (locOf r ap)).num_pulses) (spanAt r.file (locOf r ap))
      hget hsrcRead hnpSrc
    obtain ⟨hdropd, hdOut⟩ := copyOutput_drop_data r (List.insertionSort (· ≤ ·) S)
      (by omega) hdle
    obtain ⟨nl, hget2, hread2⟩ := index_spans_read r
      (copyOutput r (List.insertionSort (· ≤ ·) S)) (List.insertionSort (· ≤ ·) S)
      r.header.data_offset _ hndaps (fun b hb => (hapS b hb).2) hdropd hdOut ap hapsmem
    have hcp := get_all_records_of_read
      { header := { r.header with
          num_reads := (List.insertionSort (· ≤ ·) S).length,
          index_offset := r.header.data_offset +
            ((List.insertionSort (· ≤ ·) S).map
              (fun a => spanLenAt r.file (locOf r a))).sum }
      , record_types := r.record_types
      , raw_metadata := r.raw_metadata
      , metadata := r.raw_metadata
      , fps := r.fps
      , trimmed := r.trimmed
      , index := ⟨(List.insertionSort (· ≤ ·) S).zip
          ((layout r (List.insertionSort (· ≤ ·) S) r.header.data_offset).map
            (fun s => s.1))⟩
      , file := copyOutput r (List.insertionSort (· ≤ ·) S)
      , pos := r.header.data_offset +
          ((List.insertionSort (· ≤ ·) S).map
            (fun a => spanLenAt r.file (locOf r a))).sum + 8 +
          INDEX_RECORD_SIZE * (List.insertionSort (· ≤ ·) S).length }
      ap nl ((hdrAt r.file (locOf r ap)).num_pulses) (spanAt r.file (locOf r ap))
      hget2 hread2 hnpSrc
    exact ⟨apRecordsOfSpan (spanAt r.file (locOf r ap)) r.record_types, _, _, _, _,
      hsrc, hcp⟩

/-- C1: for a well-formed open source file and any non-empty
duplicate-free subset of the indexed apertures, copying then opening
succeeds, the new index has exactly as many entries as the subset with
the same identifier set, and every selected aperture's FormattedRecord
values on the copy equal those on the source. -/
theorem copy_open_roundtrip (file : List Byte) (r : PulseReader) (S : List Nat)
    (hvs : ValidSource file r)
    (hne : S ≠ [])
    (hnd : S.Nodup)
    (hmem : ∀ ap ∈ S, ap ∈ r.index.apertures)
    (hlen : S.length < 2 ^ 64)
    (hsum : r.header.data_offset +
      ((List.insertionSort (· ≤ ·) S).map
        (fun ap => spanLenAt file (locOf r ap))).sum < 2 ^ 64) :
    ∃ out r' r2, r.copy_apertures_to_new_file S = .ok (out, r') ∧
      PulseReader.openFile out = some r2 ∧
      r2.index.entries.length = S.length ∧
      (∀ a, a ∈ r2.index.apertures ↔ a ∈ S) ∧
      (∀ ap ∈ S, ∃ recs ah1 ah2 g1 g2,
        r.get_all_records ap = .ok ((recs, ah1), g1) ∧
        r2.get_all_records ap = .ok ((recs, ah2), g2)) := by
  obtain ⟨out, r', r2, hcopy, hopen2, hhdr2, haps2, -, -, -, -, hrecs⟩ :=
    roundtrip_main file r S hvs hmem hnd hlen hsum
  refine ⟨out, r', r2, hcopy, hopen2, ?_, ?_, hrecs⟩
  · have hl : r2.index.apertures.length = S.length := by
      rw [haps2, (List.perm_insertionSort (· ≤ ·) S).length_eq]
    unfold PulseFileIndex.apertures at hl
    rw [List.length_map] at hl
    exact hl
  · intro a
    rw [haps2]
    exact (List.perm_insertionSort (· ≤ ·) S).mem_iff

/-- C1 witness: on `tfile`, copying the subset `[20]` round-trips. -/
theorem copy_open_roundtrip_witness :
    (ValidSource tfile tReader ∧ ([20] : List Nat) ≠ [] ∧
     ([20] : List Nat).Nodup ∧ (∀ ap ∈ ([20] : List Nat), ap ∈ tReader.index.apertures) ∧
     ([20] : List Nat).length < 2 ^ 64 ∧
     tReader.header.data_offset +
       ((List.insertionSort (· ≤ ·) ([20] : List Nat)).map
         (fun ap => spanLenAt tfile (locOf tReader ap))).sum < 2 ^ 64) ∧
    (∃ out r' r2, tReader.copy_apertures_to_new_file [20] = .ok (out, r') ∧
      PulseReader.openFile out = some r2 ∧
      r2.index.entries.length = ([20] : List Nat).length ∧
      (∀ a, a ∈ r2.index.apertures ↔ a ∈ ([20] : List Nat)) ∧
      (∀ ap ∈ ([20] : List Nat), ∃ recs ah1 ah2 g1 g2,
        tReader.get_all_records ap = .ok ((recs, ah1), g1) ∧
        r2.get_all_records ap = .ok ((recs, ah2), g2))) :=
  ⟨⟨by decide, by decide, by decide, by decide, by decide, by decide⟩,
    copy_open_roundtrip tfile tReader [20] (by decide) (by decide) (by decide)
      (by decide) (by decide) (by decide)⟩

/-- C7: copying the full aperture set and re-opening yields a file
whose header differs from the original in at most `index_offset` (in
particular `num_reads` is unchanged) and whose per-aperture records are
identical to the original's. -/
theorem copy_full_roundtrip (file : List Byte) (r : PulseReader)
    (hvs : ValidSource file r)
    (hlen : r.index.apertures.length < 2 ^ 64)
    (hsum : r.header.data_offset +
      ((List.insertionSort (· ≤ ·) r.index.apertures).map
        (fun ap => spanLenAt file (locOf r ap))).sum < 2 ^ 64) :
    ∃ out r' r2, r.copy_apertures_to_new_file r.index.apertures = .ok (out, r') ∧
      PulseReader.openFile out = some r2 ∧
      r2.header = { r.header with index_offset := r2.header.index_offset } ∧
      r2.header.num_reads = r.header.num_reads ∧
      (∀ ap ∈ r.index.apertures, ∃ recs ah1 ah2 g1 g2,
        r.get_all_records ap = .ok ((recs, ah1), g1) ∧
        r2.get_all_records ap = .ok ((recs, ah2), g2)) := by
  have hnd : r.index.apertures.Nodup := hvs.2.2.2.2
  have hixp := (openFile_inv hvs.1).2.2.2.2.2.2.2.2.2.2.2.2
  have hnr : r.index.apertures.length = r.header.num_reads := by
    unfold PulseFileIndex.apertures
    rw [List.length_map, hixp]
    unfold PulseFileIndex.new
    exact parseIndexEntries_length _ _
  obtain ⟨out, r', r2, hcopy, hopen2, hhdr2, -, -, -, -, -, hrecs⟩ :=
    roundtrip_main file r r.index.apertures hvs (fun ap h => h) hnd hlen hsum
  rw [hnr] at hhdr2
  refine ⟨out, r', r2, hcopy, hopen2, ?_, ?_, hrecs⟩
  · rw [hhdr2]
  · rw [hhdr2]

/-- C7 witness: on `tfile`, copying the full aperture set `[10, 20]`
round-trips with the header unchanged except `index_offset`. -/
theorem copy_full_roundtrip_witness :
    (ValidSource tfile tReader ∧ tReader.index.apertures.length < 2 ^ 64 ∧
     tReader.header.data_offset +
       ((List.insertionSort (· ≤ ·) tReader.index.apertures).map
         (fun ap => spanLenAt tfile (locOf tReader ap))).sum < 2 ^ 64) ∧
    (∃ out r' r2,
      tReader.copy_apertures_to_new_file tReader.index.apertures = .ok (out, r') ∧
      PulseReader.openFile out = some r2 ∧
      r2.header = { tReader.header with index_offset := r2.header.index_offset } ∧
      r2.header.num_reads = tReader.header.num_reads ∧
      (∀ ap ∈ tReader.index.apertures, ∃ recs ah1 ah2 g1 g2,
        tReader.get_all_records ap = .ok ((recs, ah1), g1) ∧
        r2.get_all_records ap = .ok ((recs, ah2), g2))) :=
  ⟨⟨by decide, by decide, by decide⟩,
    copy_full_roundtrip tfile tReader (by decide) (by decide) (by decide)⟩
